import Mathlib

/-!
# Verification of the Echomancer audiobook-synthesis pipeline

Shallow embedding of the `generate-audiobook` Trigger.dev task
(`src/trigger/generate-audiobook.ts`, present in two deployed variants that
differ only in the PDF-text-extraction method) and of its helper functions
`splitText` and `updateJob`.

Modelling conventions:
* JavaScript strings are modelled as `List Char`; `.length` is the list
  length (JS counts UTF-16 code units; the difference is irrelevant to the
  properties proved here, which are uniform in the character type).
* The JS whitespace class `\s` (used by the chunker's sentence regex and by
  `String.prototype.trim`) is modelled by `isWS`, covering the ASCII
  whitespace characters; both the regex and `trim` use the same class in
  JS and in this model.
* Byte buffers are `List Nat`; `Buffer.concat` is `List.flatten`.
* The network, storage, database and inference backend are oracles packed
  in an `Env` record; the task body is a pure function of the oracle
  responses, producing the trace of observable effects (job-table writes,
  synthesizer invocations, storage uploads) plus the returned/rethrown
  outcome.
-/

set_option autoImplicit false

namespace Echomancer

/-- Model of the JS whitespace class `\s` / `trim` whitespace set
(ASCII part: space, tab, LF, VT, FF, CR). -/
def isWS (c : Char) : Bool :=
  c = ' ' || c = '\t' || c = '\n' || c = '\x0b' || c = '\x0c' || c = '\r'

/-- The sentence-terminator class `[.!?]` of the chunker's split regex
`/(?<=[.!?])\s+/`. -/
def isPunct (c : Char) : Bool :=
  c = '.' || c = '!' || c = '?'

/-- `true` when the (reversed) accumulator's most recently read character is
a sentence terminator — the lookbehind `(?<=[.!?])` of the split regex. -/
def lastIsPunct (acc : List Char) : Bool :=
  match acc with
  | [] => false
  | p :: _ => isPunct p

/-- Character-level automaton for `text.split(/(?<=[.!?])\s+/)`.

`sep = true` means we are inside a separator (a whitespace run that was
entered right after a `[.!?]` character); `acc` is the current sentence,
reversed.  A whitespace character starts a separator exactly when the
previous character was a sentence terminator; the separator swallows the
whole whitespace run.  At the end of input the current sentence is emitted
(the empty sentence when the text ends inside a separator, exactly as JS
`split` produces a trailing `""`). -/
def sentSplitAux : Bool → List Char → List Char → List (List Char)
  | _, acc, [] => [acc.reverse]
  | true, _, c :: rest =>
    if isWS c then sentSplitAux true [] rest
    else sentSplitAux false [c] rest
  | false, acc, c :: rest =>
    if isWS c && lastIsPunct acc then acc.reverse :: sentSplitAux true [] rest
    else sentSplitAux false (c :: acc) rest

/-- `text.split(/(?<=[.!?])\s+/)` from `splitText` (line 196 of the task). -/
def splitSentences (text : List Char) : List (List Char) :=
  sentSplitAux false [] text

/-- `String.prototype.trim`, right side: drop trailing whitespace. -/
def trimRight : List Char → List Char
  | [] => []
  | c :: rest =>
    let r := trimRight rest
    if r.isEmpty && isWS c then [] else c :: r

/-- `String.prototype.trim`. -/
def trim (l : List Char) : List Char :=
  trimRight (l.dropWhile isWS)

/-- `!s.trim()` — JS truthiness of the trimmed string: `true` iff the
string is empty or whitespace-only. -/
def blank (l : List Char) : Bool :=
  (trim l).isEmpty

/-- The greedy sentence-packing loop of `splitText` (lines 200–209):
carries the list of closed chunks and the current chunk under
construction.  `closePack` is the `if (current.trim()) chunks.push(current.trim())`
step shared by the overflow branch and the final flush. -/
def closePack (current : List Char) : List (List Char) :=
  if blank current then [] else [trim current]

/-- The `for (const sentence of sentences)` loop of `splitText` plus the
final flush: blank sentences are skipped; a sentence is appended to the
current chunk (followed by one space) when `current.length + sentence.length
+ 1 <= maxChars`; otherwise the current chunk is closed (trimmed) and the
sentence starts a new one. -/
def packSentences (maxChars : Nat) : List (List Char) → List (List Char) → List Char → List (List Char)
  | [], chunks, current => chunks ++ closePack current
  | s :: rest, chunks, current =>
    if blank s then packSentences maxChars rest chunks current
    else if current.length + s.length + 1 ≤ maxChars then
      packSentences maxChars rest chunks (current ++ s ++ [' '])
    else
      packSentences maxChars rest (chunks ++ closePack current) (s ++ [' '])

/-- `splitText(text, maxChars)` (task lines 195–212): split into sentences
after `[.!?]` + whitespace, greedily pack them into chunks of at most
`maxChars` characters, and fall back to `[text.slice(0, maxChars)]` when no
chunk was produced. -/
def splitText (text : List Char) (maxChars : Nat) : List (List Char) :=
  let chunks := packSentences maxChars (splitSentences text) [] []
  if chunks.length > 0 then chunks else [text.take maxChars]

/-! ## Whitespace normalization

`normalizeWS` formalizes the spec's "collapsing all whitespace runs to
single spaces (and trimming)": the maximal non-whitespace runs (`words`) of
the text, re-joined with single spaces. -/

/-- Emit the current (reversed) word accumulator, if non-empty. -/
def emitWord (acc : List Char) : List (List Char) :=
  if acc.isEmpty then [] else [acc.reverse]

/-- Scan for maximal non-whitespace runs; `acc` is the current run,
reversed. -/
def wordsAux : List Char → List Char → List (List Char)
  | acc, [] => emitWord acc
  | acc, c :: rest =>
    if isWS c then emitWord acc ++ wordsAux [] rest
    else wordsAux (c :: acc) rest

/-- The maximal non-whitespace runs of a string, in order. -/
def words (l : List Char) : List (List Char) :=
  wordsAux [] l

/-- Join strings with single spaces. -/
def joinSp : List (List Char) → List Char
  | [] => []
  | [c] => c
  | c :: cs => c ++ ' ' :: joinSp cs

/-- Collapse every whitespace run to a single space and trim both ends. -/
def normalizeWS (l : List Char) : List Char :=
  joinSp (words l)

/-- Sanity: the spec's §8 end-to-end chunking example. -/
theorem splitText_spec_example :
    splitText ("Hello world. This is a test. Goodbye now.".data) 15 =
      ["Hello world.".data, "This is a test.".data, "Goodbye now.".data] := by
  decide

/-- Sanity: sentence splitting on the same example. -/
theorem splitSentences_spec_example :
    splitSentences ("Hello world. This is a test. Goodbye now.".data) =
      ["Hello world.".data, "This is a test.".data, "Goodbye now.".data] := by
  decide

/-! ## Lemmas about `words` -/

theorem words_nil : words [] = [] := rfl

theorem words_cons_ws {c : Char} (h : isWS c = true) (rest : List Char) :
    words (c :: rest) = words rest := by
  simp [words, wordsAux, h, emitWord]

theorem wordsAux_append_ws_singleton {w : Char} (hw : isWS w = true) :
    ∀ (a acc : List Char), wordsAux acc (a ++ [w]) = wordsAux acc a
  | [], acc => by simp [wordsAux, hw, emitWord]
  | c :: a, acc => by
    by_cases hc : isWS c = true <;>
      simp [wordsAux, hc, wordsAux_append_ws_singleton hw a]

theorem wordsAux_append_ws {w : Char} (hw : isWS w = true) :
    ∀ (a acc b : List Char),
      wordsAux acc (a ++ w :: b) = wordsAux acc (a ++ [w]) ++ wordsAux [] b
  | [], acc, b => by simp [wordsAux, hw, emitWord]
  | c :: a, acc, b => by
    by_cases hc : isWS c = true
    · have h1 : ∀ t, wordsAux acc (c :: t) = emitWord acc ++ wordsAux [] t := by
        intro t; simp [wordsAux, hc]
      rw [List.cons_append, List.cons_append, h1, h1,
        wordsAux_append_ws hw a [] b, List.append_assoc]
    · have h1 : ∀ t, wordsAux acc (c :: t) = wordsAux (c :: acc) t := by
        intro t; simp [wordsAux, hc]
      rw [List.cons_append, List.cons_append, h1, h1,
        wordsAux_append_ws hw a (c :: acc) b]

theorem words_append_ws {w : Char} (hw : isWS w = true) (a b : List Char) :
    words (a ++ w :: b) = words a ++ words b := by
  unfold words
  rw [wordsAux_append_ws hw a [] b, wordsAux_append_ws_singleton hw a []]

theorem words_append_space (a b : List Char) :
    words (a ++ ' ' :: b) = words a ++ words b :=
  words_append_ws (by decide) a b

theorem words_eq_nil_of_allWS :
    ∀ {l : List Char}, (∀ c ∈ l, isWS c = true) → words l = []
  | [], _ => rfl
  | c :: rest, h => by
    rw [words_cons_ws (h c (List.mem_cons_self c rest)) rest]
    exact words_eq_nil_of_allWS fun x hx => h x (List.mem_cons_of_mem c hx)

theorem wordsAux_ne_nil {acc : List Char} (ha : acc ≠ []) :
    ∀ (l : List Char), wordsAux acc l ≠ []
  | [] => by
    cases acc with
    | nil => exact absurd rfl ha
    | cons x xs => simp [wordsAux, emitWord]
  | c :: rest => by
    by_cases hc : isWS c = true
    · have h1 : wordsAux acc (c :: rest) = emitWord acc ++ wordsAux [] rest := by
        simp [wordsAux, hc]
      rw [h1]
      cases acc with
      | nil => exact absurd rfl ha
      | cons x xs => simp [emitWord]
    · have h1 : wordsAux acc (c :: rest) = wordsAux (c :: acc) rest := by
        simp [wordsAux, hc]
      rw [h1]
      exact wordsAux_ne_nil (List.cons_ne_nil c acc) rest

theorem allWS_of_words_eq_nil :
    ∀ {l : List Char}, words l = [] → ∀ c ∈ l, isWS c = true
  | [], _, c, hc => absurd hc (List.not_mem_nil c)
  | c :: rest, h, x, hx => by
    by_cases hc : isWS c = true
    · rw [words_cons_ws hc rest] at h
      rcases List.mem_cons.1 hx with rfl | hx'
      · exact hc
      · exact allWS_of_words_eq_nil h x hx'
    · exfalso
      have hne : words (c :: rest) ≠ [] := by
        show wordsAux [] (c :: rest) ≠ []
        have h1 : wordsAux [] (c :: rest) = wordsAux [c] rest := by
          simp [wordsAux, hc]
        rw [h1]
        exact wordsAux_ne_nil (List.cons_ne_nil c []) rest
      exact hne h

theorem words_append_allWS {s : List Char} (hs : ∀ c ∈ s, isWS c = true)
    (a : List Char) : words (a ++ s) = words a := by
  cases s with
  | nil => rw [List.append_nil]
  | cons w s' =>
    rw [words_append_ws (hs w (List.mem_cons_self w s')) a s',
      words_eq_nil_of_allWS fun x hx => hs x (List.mem_cons_of_mem w hx),
      List.append_nil]

theorem words_allWS_append :
    ∀ {p : List Char}, (∀ c ∈ p, isWS c = true) → ∀ (a : List Char),
      words (p ++ a) = words a
  | [], _, a => rfl
  | w :: p', h, a => by
    rw [List.cons_append, words_cons_ws (h w (List.mem_cons_self w p')) (p' ++ a)]
    exact words_allWS_append (fun x hx => h x (List.mem_cons_of_mem w hx)) a

/-! ## Lemmas about `trim` -/

theorem length_trimRight_le : ∀ (l : List Char), (trimRight l).length ≤ l.length
  | [] => Nat.le_refl 0
  | c :: rest => by
    simp only [trimRight]
    by_cases h : (trimRight rest).isEmpty && isWS c
    · simp only [h, if_pos]
      exact Nat.zero_le _
    · simp only [h, if_neg, List.length_cons]
      exact Nat.succ_le_succ (length_trimRight_le rest)

theorem trimRight_decomp :
    ∀ (l : List Char), ∃ s, l = trimRight l ++ s ∧ ∀ c ∈ s, isWS c = true
  | [] => ⟨[], rfl, by intro c hc; exact absurd hc (List.not_mem_nil c)⟩
  | c :: rest => by
    obtain ⟨s, hs, hws⟩ := trimRight_decomp rest
    simp only [trimRight]
    by_cases h : ((trimRight rest).isEmpty && isWS c) = true
    · rw [if_pos h]
      obtain ⟨he, hc⟩ : (trimRight rest).isEmpty = true ∧ isWS c = true := by
        simpa using h
      refine ⟨c :: rest, rfl, ?_⟩
      intro x hx
      rcases List.mem_cons.1 hx with rfl | hx'
      · exact hc
      · rw [List.isEmpty_iff.1 he, List.nil_append] at hs
        exact hws x (hs ▸ hx')
    · rw [if_neg h]
      exact ⟨s, by rw [List.cons_append, ← hs], hws⟩

theorem trim_decomp (l : List Char) :
    ∃ p s, l = p ++ trim l ++ s ∧ (∀ c ∈ p, isWS c = true) ∧
      (∀ c ∈ s, isWS c = true) := by
  obtain ⟨s, hs, hws⟩ := trimRight_decomp (l.dropWhile isWS)
  refine ⟨l.takeWhile isWS, s, ?_, ?_, hws⟩
  · conv_lhs => rw [← List.takeWhile_append_dropWhile isWS l]
    rw [trim, List.append_assoc, ← hs]
  · intro c hc
    exact List.mem_takeWhile_imp hc

theorem words_trim (l : List Char) : words (trim l) = words l := by
  obtain ⟨p, s, hl, hp, hs⟩ := trim_decomp l
  conv_rhs => rw [hl]
  rw [List.append_assoc, words_allWS_append hp, words_append_allWS hs]

theorem trim_length_le (l : List Char) : (trim l).length ≤ l.length := by
  calc (trim l).length ≤ (l.dropWhile isWS).length := length_trimRight_le _
    _ ≤ l.length := by
        conv_rhs => rw [← List.takeWhile_append_dropWhile isWS l]
        rw [List.length_append]
        exact Nat.le_add_left _ _

theorem blank_iff_words_nil {l : List Char} :
    blank l = true ↔ words l = [] := by
  constructor
  · intro h
    rw [← words_trim l, List.isEmpty_iff.1 h, words_nil]
  · intro h
    have hws := allWS_of_words_eq_nil h
    have hd : l.dropWhile isWS = [] :=
      List.dropWhile_eq_nil_iff.2 fun x hx => hws x hx
    simp [blank, trim, hd, trimRight]

theorem trimRight_append_ws_singleton {w : Char} (hw : isWS w = true) :
    ∀ (x : List Char), trimRight (x ++ [w]) = trimRight x
  | [] => by simp [trimRight, hw]
  | c :: x' => by
    simp [trimRight, trimRight_append_ws_singleton hw x']

theorem dropWhile_append_eq (p : Char → Bool) :
    ∀ (l₁ l₂ : List Char), List.dropWhile p (l₁ ++ l₂) =
      if (List.dropWhile p l₁).isEmpty then List.dropWhile p l₂
      else List.dropWhile p l₁ ++ l₂
  | [], l₂ => by simp [List.dropWhile]
  | c :: l₁', l₂ => by
    by_cases hc : p c = true
    · simp only [List.cons_append, List.dropWhile, hc]
      exact dropWhile_append_eq p l₁' l₂
    · simp [List.dropWhile, hc]

theorem trim_append_ws_singleton {w : Char} (hw : isWS w = true)
    (l : List Char) : trim (l ++ [w]) = trim l := by
  unfold trim
  rw [dropWhile_append_eq]
  by_cases h : (List.dropWhile isWS l).isEmpty = true
  · rw [if_pos h, List.isEmpty_iff.1 h]
    simp [List.dropWhile, hw, trimRight]
  · rw [if_neg h, trimRight_append_ws_singleton hw]

theorem trim_append_space (l : List Char) : trim (l ++ [' ']) = trim l :=
  trim_append_ws_singleton (by decide) l

/-! ## `words` over the chunker -/

theorem words_joinSp :
    ∀ (cs : List (List Char)), words (joinSp cs) = (cs.map words).flatten
  | [] => rfl
  | [c] => by simp [joinSp]
  | c :: c' :: cs => by
    show words (c ++ ' ' :: joinSp (c' :: cs)) = _
    rw [words_append_space, words_joinSp (c' :: cs)]
    simp

theorem words_closePack (current : List Char) :
    ((closePack current).map words).flatten = words current := by
  unfold closePack
  by_cases h : blank current = true
  · rw [if_pos h]
    simp [blank_iff_words_nil.1 h]
  · rw [if_neg h]
    simp [words_trim]

/-- The chunk under construction is empty or ends in the joining space. -/
def endsSp (current : List Char) : Prop :=
  current = [] ∨ ∃ c', current = c' ++ [' ']

theorem words_chunk_step {current : List Char} (h : endsSp current)
    (s : List Char) : words (current ++ s ++ [' ']) = words current ++ words s := by
  rcases h with rfl | ⟨c', rfl⟩
  · rw [List.nil_append, words_append_allWS (s := [' ']) (by decide), words_nil,
      List.nil_append]
  · rw [words_append_allWS (s := [' ']) (by decide) (c' ++ [' '] ++ s),
      words_append_allWS (s := [' ']) (by decide) c', List.append_assoc,
      List.singleton_append, words_append_space]

theorem pack_words (mc : Nat) :
    ∀ (ss chunks : List (List Char)) (current : List Char), endsSp current →
      ((packSentences mc ss chunks current).map words).flatten =
        (chunks.map words).flatten ++ words current ++ (ss.map words).flatten
  | [], chunks, current, h => by
    simp only [packSentences, List.map_append, List.flatten_append,
      words_closePack, List.map_nil, List.flatten_nil, List.append_nil]
  | s :: rest, chunks, current, h => by
    simp only [packSentences]
    by_cases hb : blank s = true
    · rw [if_pos hb, pack_words mc rest chunks current h]
      simp [blank_iff_words_nil.1 hb]
    · rw [if_neg hb]
      by_cases hfit : current.length + s.length + 1 ≤ mc
      · rw [if_pos hfit,
          pack_words mc rest chunks (current ++ s ++ [' '])
            (Or.inr ⟨current ++ s, rfl⟩),
          words_chunk_step h]
        simp [List.append_assoc]
      · rw [if_neg hfit,
          pack_words mc rest (chunks ++ closePack current) (s ++ [' '])
            (Or.inr ⟨s, rfl⟩)]
        rw [words_append_allWS (s := [' ']) (by decide) s]
        simp only [List.map_append, List.flatten_append, words_closePack]
        simp [List.append_assoc]

theorem sentSplit_words :
    ∀ (l : List Char) (sep : Bool) (acc : List Char), (sep = true → acc = []) →
      ((sentSplitAux sep acc l).map words).flatten = words (acc.reverse ++ l)
  | [], sep, acc, _ => by
    cases sep <;> simp [sentSplitAux]
  | c :: rest, sep, acc, hsep => by
    cases sep with
    | true =>
      rw [hsep rfl]
      by_cases hc : isWS c = true
      · simp only [List.reverse_nil, List.nil_append]
        rw [words_cons_ws hc]
        simp [sentSplitAux, hc, sentSplit_words rest true [] (fun _ => rfl)]
      · simp [sentSplitAux, hc, sentSplit_words rest false [c] (fun h => nomatch h)]
    | false =>
      by_cases hcp : (isWS c && lastIsPunct acc) = true
      · obtain ⟨hcw, -⟩ : isWS c = true ∧ lastIsPunct acc = true := by simpa using hcp
        rw [words_append_ws hcw acc.reverse rest]
        simp [sentSplitAux, hcp, sentSplit_words rest true [] (fun _ => rfl)]
      · rw [show acc.reverse ++ c :: rest = (c :: acc).reverse ++ rest by simp]
        simp [sentSplitAux, hcp, sentSplit_words rest false (c :: acc) (fun h => nomatch h)]

theorem splitSentences_words (text : List Char) :
    (((splitSentences text).map words)).flatten = words text :=
  sentSplit_words text false [] (fun h => nomatch h)

theorem words_splitText {text : List Char} (mc : Nat) (h : blank text = false) :
    ((splitText text mc).map words).flatten = words text := by
  have hw : words text ≠ [] := by
    intro hnil
    rw [blank_iff_words_nil.2 hnil] at h
    exact Bool.true_eq_false ▸ h
  have hpack : ((packSentences mc (splitSentences text) [] []).map words).flatten =
      words text := by
    rw [pack_words mc _ [] [] (Or.inl rfl), words_nil]
    simpa using splitSentences_words text
  have hne : packSentences mc (splitSentences text) [] [] ≠ [] := by
    intro h0
    rw [h0] at hpack
    exact hw (by simpa using hpack.symm)
  simp only [splitText]
  rw [if_pos (by exact List.length_pos.2 hne)]
  exact hpack

/-- **C6**: for every non-whitespace-only text and `maxChars ≥ 1`, joining
the segments of `splitText` with single spaces and collapsing/trimming
whitespace reproduces the whitespace-normalized input: no characters are
dropped or duplicated apart from whitespace collapsing, and segment order
matches text order. -/
theorem C6_split_join_normalize (text : List Char) (mc : Nat)
    (hmc : 1 ≤ mc) (hblank : blank text = false) :
    normalizeWS (joinSp (splitText text mc)) = normalizeWS text := by
  unfold normalizeWS
  rw [words_joinSp, words_splitText mc hblank]

set_option maxRecDepth 4000 in
/-- Witness for `C6_split_join_normalize` at the spec's §8 example. -/
theorem C6_split_join_normalize_witness :
    normalizeWS (joinSp (splitText ("Hello world. This is a test. Goodbye now.".data) 15)) =
      normalizeWS ("Hello world. This is a test. Goodbye now.".data) :=
  C6_split_join_normalize _ 15 (by decide) (by decide)

/-- **C4 counterexample**: `splitText("", 1)` returns exactly one segment,
but that segment is the *empty* string — the fallback `text.slice(0, maxChars)`
of an empty input — contradicting the claim that the segment is non-empty. -/
theorem C4_chunker_totality_counterexample :
    splitText [] 1 = [[]] ∧ ∃ seg ∈ splitText [] 1, seg = ([] : List Char) := by
  decide

theorem splitText_length_pos (text : List Char) (mc : Nat) :
    0 < (splitText text mc).length := by
  simp only [splitText]
  by_cases h : (packSentences mc (splitSentences text) [] []).length > 0
  · rw [if_pos h]
    exact h
  · rw [if_neg h]
    simp

/-- **C4 (amended)**: for every `maxChars ≥ 1`, `splitText("", maxChars)`
and `splitText("   ", maxChars)` each return exactly one segment, the
fallback segment equals the first `maxChars` characters of the raw input
(hence it is non-empty for the whitespace input but *empty* for the empty
input), and zero segments are never returned for any input. -/
theorem C4_chunker_totality_amended (mc : Nat) (hmc : 1 ≤ mc) :
    splitText [] mc = [List.take mc []]
    ∧ splitText ("   ".data) mc = [List.take mc ("   ".data)]
    ∧ (splitText [] mc).length = 1
    ∧ (splitText ("   ".data) mc).length = 1
    ∧ List.take mc ("   ".data) ≠ []
    ∧ (∀ text : List Char, 1 ≤ (splitText text mc).length) := by
  refine ⟨rfl, rfl, rfl, rfl, ?_, ?_⟩
  · cases mc with
    | zero => exact absurd hmc (by decide)
    | succ n => simp [List.take]
  · intro text
    exact splitText_length_pos text mc

/-- Witness for `C4_chunker_totality_amended` at `maxChars = 2`. -/
theorem C4_chunker_totality_amended_witness :
    splitText [] 2 = [List.take 2 []]
    ∧ splitText ("   ".data) 2 = [List.take 2 ("   ".data)]
    ∧ (splitText [] 2).length = 1
    ∧ (splitText ("   ".data) 2).length = 1
    ∧ List.take 2 ("   ".data) ≠ []
    ∧ (∀ text : List Char, 1 ≤ (splitText text 2).length) :=
  C4_chunker_totality_amended 2 (by decide)

/-! ## Oversized-sentence policy (C5) -/

theorem pack_preserves_chunks (mc : Nat) :
    ∀ (ss chunks : List (List Char)) (current ch : List Char), ch ∈ chunks →
      ch ∈ packSentences mc ss chunks current
  | [], chunks, current, ch, hch => by
    simp only [packSentences]
    exact List.mem_append_left _ hch
  | s :: rest, chunks, current, ch, hch => by
    simp only [packSentences]
    by_cases hb : blank s = true
    · rw [if_pos hb]
      exact pack_preserves_chunks mc rest chunks current ch hch
    · rw [if_neg hb]
      by_cases hfit : current.length + s.length + 1 ≤ mc
      · rw [if_pos hfit]
        exact pack_preserves_chunks mc rest chunks _ ch hch
      · rw [if_neg hfit]
        exact pack_preserves_chunks mc rest _ _ ch (List.mem_append_left _ hch)

theorem pack_cur_mem (mc : Nat) :
    ∀ (ss chunks : List (List Char)) (current : List Char),
      blank current = false → mc < current.length →
      trim current ∈ packSentences mc ss chunks current
  | [], chunks, current, hb, _ => by
    simp only [packSentences, closePack, hb, Bool.false_eq_true, if_neg,
      Bool.not_eq_true]
    exact List.mem_append_right _ (List.mem_singleton_self _)
  | s :: rest, chunks, current, hb, hlen => by
    simp only [packSentences]
    by_cases hbs : blank s = true
    · rw [if_pos hbs]
      exact pack_cur_mem mc rest chunks current hb hlen
    · rw [if_neg hbs, if_neg (by omega)]
      refine pack_preserves_chunks mc rest _ _ _ ?_
      simp only [closePack, hb, Bool.false_eq_true, if_neg, Bool.not_eq_true]
      exact List.mem_append_right _ (List.mem_singleton_self _)

theorem blank_append_space (s : List Char) : blank (s ++ [' ']) = blank s := by
  simp only [blank, trim_append_space]

theorem pack_oversized (mc : Nat) :
    ∀ (ss chunks : List (List Char)) (current s : List Char),
      s ∈ ss → blank s = false → mc < s.length →
      trim s ∈ packSentences mc ss chunks current
  | [], _, _, s, hs, _, _ => absurd hs (List.not_mem_nil s)
  | t :: rest, chunks, current, s, hs, hb, hlen => by
    simp only [packSentences]
    rcases List.mem_cons.1 hs with rfl | hs'
    · rw [if_neg (by rw [hb]; exact Bool.false_ne_true), if_neg (by omega)]
      have hmem := pack_cur_mem mc rest (chunks ++ closePack current) (s ++ [' '])
        (by rw [blank_append_space, hb]) (by simp; omega)
      rw [trim_append_space] at hmem
      exact hmem
    · by_cases hbt : blank t = true
      · rw [if_pos hbt]
        exact pack_oversized mc rest chunks current s hs' hb hlen
      · rw [if_neg hbt]
        by_cases hfit : current.length + t.length + 1 ≤ mc
        · rw [if_pos hfit]
          exact pack_oversized mc rest chunks _ s hs' hb hlen
        · rw [if_neg hfit]
          exact pack_oversized mc rest _ _ s hs' hb hlen

theorem closePack_bound {mc : Nat} {SS : List (List Char)} {current : List Char}
    (hq : current = [] ∨ current.length ≤ mc ∨ ∃ s ∈ SS, current = s ++ [' ']) :
    ∀ ch ∈ closePack current,
      ch.length ≤ mc ∨ ∃ s ∈ SS, ch = trim s ∧ mc < s.length := by
  intro ch hch
  simp only [closePack] at hch
  by_cases hb : blank current = true
  · rw [if_pos hb] at hch
    exact absurd hch (List.not_mem_nil ch)
  · rw [if_neg hb] at hch
    rw [List.mem_singleton.1 hch]
    rcases hq with rfl | hlen | ⟨s, hs, rfl⟩
    · exact absurd rfl hb
    · exact Or.inl (le_trans (trim_length_le current) hlen)
    · by_cases hsl : s.length ≤ mc
      · refine Or.inl ?_
        rw [trim_append_space]
        exact le_trans (trim_length_le s) hsl
      · exact Or.inr ⟨s, hs, trim_append_space s, by omega⟩

theorem pack_bound (mc : Nat) (SS : List (List Char)) :
    ∀ (ss chunks : List (List Char)) (current : List Char),
      (∀ s ∈ ss, s ∈ SS) →
      (∀ ch ∈ chunks, ch.length ≤ mc ∨ ∃ s ∈ SS, ch = trim s ∧ mc < s.length) →
      (current = [] ∨ current.length ≤ mc ∨ ∃ s ∈ SS, current = s ++ [' ']) →
      ∀ ch ∈ packSentences mc ss chunks current,
        ch.length ≤ mc ∨ ∃ s ∈ SS, ch = trim s ∧ mc < s.length
  | [], chunks, current, _, hch, hq, ch, hmem => by
    simp only [packSentences] at hmem
    rcases List.mem_append.1 hmem with h | h
    · exact hch ch h
    · exact closePack_bound hq ch h
  | s :: rest, chunks, current, hsub, hch, hq, ch, hmem => by
    simp only [packSentences] at hmem
    by_cases hbs : blank s = true
    · rw [if_pos hbs] at hmem
      exact pack_bound mc SS rest chunks current
        (fun x hx => hsub x (List.mem_cons_of_mem s hx)) hch hq ch hmem
    · rw [if_neg hbs] at hmem
      by_cases hfit : current.length + s.length + 1 ≤ mc
      · rw [if_pos hfit] at hmem
        refine pack_bound mc SS rest chunks (current ++ s ++ [' '])
          (fun x hx => hsub x (List.mem_cons_of_mem s hx)) hch
          (Or.inr (Or.inl (by simp; omega))) ch hmem
      · rw [if_neg hfit] at hmem
        refine pack_bound mc SS rest (chunks ++ closePack current) (s ++ [' '])
          (fun x hx => hsub x (List.mem_cons_of_mem s hx)) ?_
          (Or.inr (Or.inr ⟨s, hsub s (List.mem_cons_self s rest), rfl⟩)) ch hmem
        intro x hx
        rcases List.mem_append.1 hx with h | h
        · exact hch x h
        · exact closePack_bound hq x h

/-- **C5**: for every text and `maxChars ≥ 1`, every segment of `splitText`
has length at most `maxChars`, except a segment that is a single (trimmed)
sentence whose own length exceeds `maxChars`; and every such oversized
sentence becomes its own segment (never subdivided or dropped). -/
theorem C5_oversized_sentence_policy (text : List Char) (mc : Nat)
    (hmc : 1 ≤ mc) :
    (∀ ch ∈ splitText text mc,
        ch.length ≤ mc ∨ ∃ s ∈ splitSentences text, ch = trim s ∧ mc < s.length)
    ∧ (∀ s ∈ splitSentences text, blank s = false → mc < s.length →
        trim s ∈ splitText text mc) := by
  constructor
  · intro ch hch
    simp only [splitText] at hch
    by_cases h : (packSentences mc (splitSentences text) [] []).length > 0
    · rw [if_pos h] at hch
      exact pack_bound mc (splitSentences text) (splitSentences text) [] []
        (fun s hs => hs) (fun c hc => absurd hc (List.not_mem_nil c))
        (Or.inl rfl) ch hch
    · rw [if_neg h] at hch
      rw [List.mem_singleton.1 hch]
      exact Or.inl (by simpa using Nat.min_le_left mc text.length)
  · intro s hs hb hlen
    have hmem := pack_oversized mc (splitSentences text) [] [] s hs hb hlen
    have hne : packSentences mc (splitSentences text) [] [] ≠ [] :=
      List.ne_nil_of_mem hmem
    simp only [splitText]
    rw [if_pos (List.length_pos.2 hne)]
    exact hmem

/-- Witness for `C5_oversized_sentence_policy`: with `maxChars = 5`, the
18-character sentence becomes its own oversized segment. -/
theorem C5_oversized_sentence_policy_witness :
    (∀ ch ∈ splitText ("Hi there everyone. Ok.".data) 5,
        ch.length ≤ 5 ∨ ∃ s ∈ splitSentences ("Hi there everyone. Ok.".data),
          ch = trim s ∧ 5 < s.length)
    ∧ (∀ s ∈ splitSentences ("Hi there everyone. Ok.".data),
        blank s = false → 5 < s.length →
        trim s ∈ splitText ("Hi there everyone. Ok.".data) 5) :=
  C5_oversized_sentence_policy _ 5 (by decide)

/-! ## The regex-extraction variant's chunker (C10)

The repository deploys a second variant of the task whose only difference
is the PDF-text-extraction method; its `splitText` (and the greedy loop in
it) is character-for-character identical source text.  It is embedded
separately so that extensional equality is a statement, not a tautology. -/

namespace RegexTask

/-- The greedy sentence-packing loop of the regex-extraction variant's
`splitText` (lines 198–207 of that file; identical source text). -/
def packSentences (maxChars : Nat) : List (List Char) → List (List Char) → List Char → List (List Char)
  | [], chunks, current => chunks ++ closePack current
  | s :: rest, chunks, current =>
    if blank s then packSentences maxChars rest chunks current
    else if current.length + s.length + 1 ≤ maxChars then
      packSentences maxChars rest chunks (current ++ s ++ [' '])
    else
      packSentences maxChars rest (chunks ++ closePack current) (s ++ [' '])

/-- `splitText(text, maxChars)` of the regex-extraction variant
(lines 193–210 of that file; identical source text). -/
def splitText (text : List Char) (maxChars : Nat) : List (List Char) :=
  let chunks := RegexTask.packSentences maxChars (splitSentences text) [] []
  if chunks.length > 0 then chunks else [text.take maxChars]

end RegexTask

theorem regexTask_pack_eq (mc : Nat) :
    ∀ (ss chunks : List (List Char)) (current : List Char),
      RegexTask.packSentences mc ss chunks current = packSentences mc ss chunks current
  | [], _, _ => rfl
  | s :: rest, chunks, current => by
    simp only [RegexTask.packSentences, packSentences]
    by_cases hb : blank s = true
    · rw [if_pos hb, if_pos hb, regexTask_pack_eq mc rest chunks current]
    · rw [if_neg hb, if_neg hb]
      by_cases hfit : current.length + s.length + 1 ≤ mc
      · rw [if_pos hfit, if_pos hfit, regexTask_pack_eq mc rest chunks _]
      · rw [if_neg hfit, if_neg hfit, regexTask_pack_eq mc rest _ _]

/-- **C10**: the two deployed variants of the chunker are extensionally
equal — for every text and maxChars they return identical segment lists
(their sources are character-for-character identical). -/
theorem C10_variants_extensionally_equal (text : List Char) (mc : Nat) :
    RegexTask.splitText text mc = splitText text mc := by
  simp only [RegexTask.splitText, splitText, regexTask_pack_eq]

/-! ## The `generate-audiobook` task run

Model of `generateAudiobook.run` (pdf-parse variant, lines 31–174).
External collaborators are oracles in `Env`; the run produces the ordered
trace of observable effects and the returned/rethrown outcome. -/

/-- Byte buffers (`Buffer`); `Buffer.concat` is `List.flatten`. -/
abbrev Bytes := List Nat

/-- `status` values the task writes. -/
inductive JobStatus
  | processing
  | ready
  | failed
deriving DecidableEq, Repr

/-- One partial-field update passed to `updateJob` (the `updates` record).
The code also stamps `updated_at` with the wall clock, which carries no
observable content for the properties here and is not modelled. -/
structure JobUpdate where
  status : Option JobStatus := none
  progress : Option Nat := none
  error : Option (List Char) := none
  audioPath : Option (List Char) := none
deriving DecidableEq, Repr

/-- Observable effects of one task run, in order: job-table writes,
synthesis-backend invocations, and storage-upload attempts. -/
inductive Event
  | update (u : JobUpdate)
  | synthCall (i : Nat) (chunk : List Char) (refAudio : List Char)
  | storageUpload (path : List Char) (bytes : Bytes)
deriving DecidableEq, Repr

/-- A response of the synthesis backend (`replicate.run`): a plain URL
string (`typeof output === "string"`), an object exposing a `url` field, or
any other value — including a direct byte payload — whose JS string
coercion `String(output)` is carried explicitly, since it depends on the
payload's runtime type (a `Buffer` decodes as UTF-8, a `Uint8Array` joins
with commas, a stream stringifies as an object tag). -/
inductive SynthOut
  | str (s : List Char)
  | objWithUrl (u : List Char)
  | bytePayload (b : Bytes) (coerced : List Char)
deriving DecidableEq, Repr

/-- Result of `fetch(audioUrl)`: a rejected promise, or a response with its
`ok` flag and body bytes. -/
inductive FetchResult
  | reject (msg : List Char)
  | resp (ok : Bool) (body : Bytes)
deriving DecidableEq, Repr

/-- The task payload (`GenerateAudiobookPayload`); `startTime`/`endTime`
are destructured by the run but never used. -/
structure Payload where
  jobId : List Char
  pdfStoragePath : List Char
  voiceStoragePath : Option (List Char)
  videoId : Option (List Char)
  startTime : Int
  endTime : Int

/-- Oracle responses of the external collaborators for one run: the PDF
storage download, PDF-text extraction, public-URL construction, the
synthesis backend (keyed by call index), the result fetch (keyed by URL),
the final upload, and the job-table write results (keyed by update
ordinal). -/
structure Env where
  download : Except (List Char) Bytes
  extract : Bytes → List Char
  publicUrl : List Char → List Char
  synth : Nat → Except (List Char) SynthOut
  fetch : List Char → FetchResult
  uploadError : Option (List Char)
  recorder : Nat → Option (List Char)

/-- Trace state of a run: events so far, warn-log entries so far, and the
number of `updateJob` calls performed (indexing the recorder oracle). -/
structure RunState where
  events : List Event
  logs : List (List Char)
  updCount : Nat
deriving DecidableEq, Repr

def initState : RunState := { events := [], logs := [], updCount := 0 }

/-- `updateJob` (task lines 180–193): attempt the job-table update; when
the table reports an error, log a warning (`logger.warn`) and continue —
the function never throws, so the caller always receives the next trace
state. -/
def updateJob (env : Env) (st : RunState) (u : JobUpdate) : RunState :=
  { events := st.events ++ [Event.update u]
  , logs := st.logs ++
      (match env.recorder st.updCount with
       | some m => [("Failed to update job status: ".data ++ m)]
       | none => [])
  , updCount := st.updCount + 1 }

def pushEvent (st : RunState) (e : Event) : RunState :=
  { st with events := st.events ++ [e] }

/-- The URL the task derives from a backend response (lines 116–123): a
string is used as-is, an object exposing `url` contributes that field,
anything else — including a direct byte payload — is coerced with
`String(output)`. -/
def audioUrlOf : SynthOut → List Char
  | .str s => s
  | .objWithUrl u => u
  | .bytePayload _ coerced => coerced

def chunkFetchFailMsg (i : Nat) : List Char :=
  "Failed to download generated audio for chunk ".data ++ (toString (i + 1)).data

def pdfFailMsg (m : List Char) : List Char :=
  "Failed to download PDF: ".data ++ m

def scannedMsg : List Char :=
  "Could not extract text from PDF. Is it a scanned document?".data

def ytMsg : List Char :=
  "YouTube audio extraction requires yt-dlp. Please upload a voice sample directly for now.".data

def noVoiceMsg : List Char :=
  "No voice sample provided".data

def uploadFailMsg (m : List Char) : List Char :=
  "Failed to upload audiobook: ".data ++ m

def outputPathOf (jobId : List Char) : List Char :=
  "output/".data ++ jobId ++ "/audiobook.wav".data

/-- `maxChunkChars` (line 90). -/
def maxChunkChars : Nat := 4000

/-- Per-segment audio the environment delivers for call index `i`: the
bytes fetched from the normalized URL, or `none` when the backend call
rejects, the fetch rejects, or the response is not `ok`. -/
def segmentAudio (env : Env) (i : Nat) : Option Bytes :=
  match env.synth i with
  | .error _ => none
  | .ok out =>
    match env.fetch (audioUrlOf out) with
    | .reject _ => none
    | .resp ok body => if ok then some body else none

/-- The per-chunk synthesis loop (task lines 98–133): emit the backend
call, normalize the response to a URL, fetch it, require `res.ok`, append
the body, then record the chunk progress
`35 + Math.floor(((i+1)/n) * 50)` (the float arithmetic is modelled as the
exact rational floor `35 + (i+1)*50/n`, which the claims' formula also
denotes).  Any failure aborts with the error message, keeping the events
accumulated so far. -/
def synthLoop (env : Env) (voiceUrl : List Char) (n : Nat) :
    List (List Char) → Nat → RunState → List Bytes →
      RunState × Except (List Char) (List Bytes)
  | [], _, st, acc => (st, .ok acc)
  | chunk :: rest, i, st, acc =>
    let st1 := pushEvent st (Event.synthCall i chunk voiceUrl)
    match env.synth i with
    | .error m => (st1, .error m)
    | .ok out =>
      match env.fetch (audioUrlOf out) with
      | .reject m => (st1, .error m)
      | .resp ok body =>
        if ok then
          synthLoop env voiceUrl n rest (i + 1)
            (updateJob env st1 { progress := some (35 + ((i + 1) * 50) / n) })
            (acc ++ [body])
        else
          (st1, .error (chunkFetchFailMsg i))

/-- The `try` body of the task's `run` (lines 36–161); the `Except` value
is the thrown error or the returned `outputPath`. -/
def tryBody (env : Env) (p : Payload) : RunState × Except (List Char) (List Char) :=
  let st := updateJob env initState { status := some JobStatus.processing, progress := some 5 }
  let st := updateJob env st { progress := some 10 }
  match env.download with
  | .error m => (st, .error (pdfFailMsg m))
  | .ok pdfBytes =>
    let text := env.extract pdfBytes
    if blank text then (st, .error scannedMsg)
    else
      let st := updateJob env st { progress := some 25 }
      match p.voiceStoragePath with
      | none =>
        match p.videoId with
        | some _ => (st, .error ytMsg)
        | none => (st, .error noVoiceMsg)
      | some vp =>
        let voiceUrl := env.publicUrl vp
        let st := updateJob env st { progress := some 35 }
        let chunks := splitText text maxChunkChars
        match synthLoop env voiceUrl chunks.length chunks 0 st [] with
        | (st2, .error m) => (st2, .error m)
        | (st2, .ok segs) =>
          let st3 := updateJob env st2 { progress := some 90 }
          let fullAudio := segs.flatten
          let outputPath := outputPathOf p.jobId
          let st4 := pushEvent st3 (Event.storageUpload outputPath fullAudio)
          match env.uploadError with
          | some m => (st4, .error (uploadFailMsg m))
          | none =>
            let st5 := updateJob env st4
              { status := some JobStatus.ready, progress := some 100,
                audioPath := some outputPath }
            (st5, .ok outputPath)

/-- Result of one task run: the full effect/log trace plus the returned
value or the rethrown error. -/
structure RunResult where
  events : List Event
  logs : List (List Char)
  outcome : Except (List Char) (List Char)
deriving Repr

/-- `generateAudiobook.run` (lines 31–174): the `try` body wrapped in the
`catch` block, which converts the error to a message, makes one final
`{status: failed, error: message}` write, and rethrows. -/
def runTask (env : Env) (p : Payload) : RunResult :=
  match tryBody env p with
  | (st, .ok outputPath) => { events := st.events, logs := st.logs, outcome := .ok outputPath }
  | (st, .error msg) =>
    let st2 := updateJob env st { status := some JobStatus.failed, error := some msg }
    { events := st2.events, logs := st2.logs, outcome := .error msg }

/-! ### Trace projections -/

/-- `status` values written to the job table, in order. -/
def statusWrites (evs : List Event) : List JobStatus :=
  evs.filterMap fun e => match e with
    | .update u => u.status
    | _ => none

/-- `progress` values written to the job table, in order. -/
def progressWrites (evs : List Event) : List Nat :=
  evs.filterMap fun e => match e with
    | .update u => u.progress
    | _ => none

/-- `audio_storage_path` (output location) values written, in order. -/
def audioPathWrites (evs : List Event) : List (List Char) :=
  evs.filterMap fun e => match e with
    | .update u => u.audioPath
    | _ => none

/-- Synthesizer invocations `(index, chunk text)`, in order. -/
def synthCalls (evs : List Event) : List (Nat × List Char) :=
  evs.filterMap fun e => match e with
    | .synthCall i chunk _ => some (i, chunk)
    | _ => none

/-- The indices of the synthesizer invocations, in order. -/
def synthCallIndices (evs : List Event) : List Nat :=
  (synthCalls evs).map Prod.fst

/-- Storage-upload attempts `(path, bytes)`, in order. -/
def uploadsOf (evs : List Event) : List (List Char × Bytes) :=
  evs.filterMap fun e => match e with
    | .storageUpload path bytes => some (path, bytes)
    | _ => none

/-- A `ready` status write occurring somewhere after a `failed` one. -/
def ReadyAfterFailed (l : List JobStatus) : Prop :=
  ∃ l₁ l₂ l₃, l = l₁ ++ JobStatus.failed :: l₂ ++ JobStatus.ready :: l₃

/-! ### Projection lemmas -/

theorem statusWrites_append (a b : List Event) :
    statusWrites (a ++ b) = statusWrites a ++ statusWrites b :=
  List.filterMap_append a b _

theorem progressWrites_append (a b : List Event) :
    progressWrites (a ++ b) = progressWrites a ++ progressWrites b :=
  List.filterMap_append a b _

theorem audioPathWrites_append (a b : List Event) :
    audioPathWrites (a ++ b) = audioPathWrites a ++ audioPathWrites b :=
  List.filterMap_append a b _

theorem synthCalls_append (a b : List Event) :
    synthCalls (a ++ b) = synthCalls a ++ synthCalls b :=
  List.filterMap_append a b _

theorem uploadsOf_append (a b : List Event) :
    uploadsOf (a ++ b) = uploadsOf a ++ uploadsOf b :=
  List.filterMap_append a b _

/-- The pair of events one successful chunk iteration appends: the backend
call and the progress write. -/
def chunkBlock (voiceUrl : List Char) (n i : Nat) (chunk : List Char) : List Event :=
  [Event.synthCall i chunk voiceUrl,
   Event.update { progress := some (35 + ((i + 1) * 50) / n) }]

/-- The events appended by a run of fully successful chunk iterations. -/
def blocksOf (voiceUrl : List Char) (n : Nat) (l : List (Nat × List Char)) : List Event :=
  (l.map fun pr => chunkBlock voiceUrl n pr.1 pr.2).flatten

theorem blocksOf_cons (v : List Char) (n : Nat) (pr : Nat × List Char)
    (rest : List (Nat × List Char)) :
    blocksOf v n (pr :: rest) = chunkBlock v n pr.1 pr.2 ++ blocksOf v n rest := by
  simp [blocksOf]

theorem statusWrites_blocks (v : List Char) (n : Nat) :
    ∀ l : List (Nat × List Char), statusWrites (blocksOf v n l) = []
  | [] => rfl
  | pr :: rest => by
    rw [blocksOf_cons, statusWrites_append, statusWrites_blocks v n rest]
    rfl

theorem audioPathWrites_blocks (v : List Char) (n : Nat) :
    ∀ l : List (Nat × List Char), audioPathWrites (blocksOf v n l) = []
  | [] => rfl
  | pr :: rest => by
    rw [blocksOf_cons, audioPathWrites_append, audioPathWrites_blocks v n rest]
    rfl

theorem uploadsOf_blocks (v : List Char) (n : Nat) :
    ∀ l : List (Nat × List Char), uploadsOf (blocksOf v n l) = []
  | [] => rfl
  | pr :: rest => by
    rw [blocksOf_cons, uploadsOf_append, uploadsOf_blocks v n rest]
    rfl

theorem synthCalls_blocks (v : List Char) (n : Nat) :
    ∀ l : List (Nat × List Char), synthCalls (blocksOf v n l) = l
  | [] => rfl
  | pr :: rest => by
    obtain ⟨i, c⟩ := pr
    rw [blocksOf_cons, synthCalls_append, synthCalls_blocks v n rest]
    rfl

theorem progressWrites_blocks (v : List Char) (n : Nat) :
    ∀ l : List (Nat × List Char),
      progressWrites (blocksOf v n l) = l.map fun pr => 35 + ((pr.1 + 1) * 50) / n
  | [] => rfl
  | pr :: rest => by
    rw [blocksOf_cons, progressWrites_append, progressWrites_blocks v n rest]
    rfl

/-! ### Characterization of the synthesis loop -/

theorem synthLoop_ok_char (env : Env) (voiceUrl : List Char) (n : Nat) :
    ∀ (chunks : List (List Char)) (i : Nat) (st : RunState) (acc : List Bytes)
      {st' : RunState} {segs : List Bytes},
      synthLoop env voiceUrl n chunks i st acc = (st', Except.ok segs) →
      st'.events = st.events ++ blocksOf voiceUrl n (List.enumFrom i chunks)
      ∧ segs = acc ++ (List.enumFrom i chunks).map (fun pr => (segmentAudio env pr.1).getD [])
      ∧ (∀ pr ∈ List.enumFrom i chunks, (segmentAudio env pr.1).isSome = true)
      ∧ st'.updCount = st.updCount + chunks.length
  | [], i, st, acc, st', segs, h => by
    simp only [synthLoop, Prod.mk.injEq, Except.ok.injEq] at h
    obtain ⟨rfl, rfl⟩ := h
    simp [blocksOf, List.enumFrom]
  | chunk :: rest, i, st, acc, st', segs, h => by
    simp only [synthLoop] at h
    cases hsyn : env.synth i with
    | error m =>
      simp only [hsyn] at h
      simp at h
    | ok out =>
      simp only [hsyn] at h
      cases hfet : env.fetch (audioUrlOf out) with
      | reject m =>
        simp only [hfet] at h
        simp at h
      | resp ok body =>
        simp only [hfet] at h
        cases ok with
        | false => simp at h
        | true =>
          simp only [if_true] at h
          replace h : synthLoop env voiceUrl n rest (i + 1)
              (updateJob env (pushEvent st (Event.synthCall i chunk voiceUrl))
                { progress := some (35 + ((i + 1) * 50) / n) })
              (acc ++ [body]) = (st', Except.ok segs) := by
            simpa using h
          have hseg : segmentAudio env i = some body := by
            simp [segmentAudio, hsyn, hfet]
          obtain ⟨hA, hB, hC, hD⟩ := synthLoop_ok_char env voiceUrl n rest (i + 1) _ _ h
          refine ⟨?_, ?_, ?_, ?_⟩
          · rw [hA]
            simp [updateJob, pushEvent, blocksOf, chunkBlock, List.enumFrom,
              List.append_assoc]
          · rw [hB]
            simp [List.enumFrom, hseg, List.append_assoc]
          · intro pr hpr
            rw [List.enumFrom] at hpr
            rcases List.mem_cons.1 hpr with rfl | hpr'
            · simp [hseg]
            · exact hC pr hpr'
          · rw [hD]
            simp only [updateJob, pushEvent, List.length_cons]
            omega

theorem synthLoop_err_char (env : Env) (voiceUrl : List Char) (n : Nat) :
    ∀ (chunks : List (List Char)) (i : Nat) (st : RunState) (acc : List Bytes)
      {st' : RunState} {msg : List Char},
      synthLoop env voiceUrl n chunks i st acc = (st', Except.error msg) →
      ∃ k ck, k < chunks.length
        ∧ (segmentAudio env (i + k)).isSome = false
        ∧ (∀ j < k, (segmentAudio env (i + j)).isSome = true)
        ∧ st'.events = st.events ++ blocksOf voiceUrl n (List.enumFrom i (chunks.take k))
            ++ [Event.synthCall (i + k) ck voiceUrl]
  | [], i, st, acc, st', msg, h => by
    simp [synthLoop] at h
  | chunk :: rest, i, st, acc, st', msg, h => by
    simp only [synthLoop] at h
    cases hsyn : env.synth i with
    | error m =>
      simp only [hsyn] at h
      obtain ⟨rfl, rfl⟩ : pushEvent st (Event.synthCall i chunk voiceUrl) = st' ∧ m = msg := by
        simpa using h
      refine ⟨0, chunk, Nat.succ_pos _, ?_, fun j hj => absurd hj (Nat.not_lt_zero j), ?_⟩
      · simp [segmentAudio, hsyn]
      · simp [pushEvent, blocksOf, List.enumFrom]
    | ok out =>
      simp only [hsyn] at h
      cases hfet : env.fetch (audioUrlOf out) with
      | reject m =>
        simp only [hfet] at h
        obtain ⟨rfl, rfl⟩ : pushEvent st (Event.synthCall i chunk voiceUrl) = st' ∧ m = msg := by
          simpa using h
        refine ⟨0, chunk, Nat.succ_pos _, ?_, fun j hj => absurd hj (Nat.not_lt_zero j), ?_⟩
        · simp [segmentAudio, hsyn, hfet]
        · simp [pushEvent, blocksOf, List.enumFrom]
      | resp ok body =>
        simp only [hfet] at h
        cases ok with
        | false =>
          obtain ⟨rfl, rfl⟩ : pushEvent st (Event.synthCall i chunk voiceUrl) = st'
              ∧ chunkFetchFailMsg i = msg := by
            simpa using h
          refine ⟨0, chunk, Nat.succ_pos _, ?_, fun j hj => absurd hj (Nat.not_lt_zero j), ?_⟩
          · simp [segmentAudio, hsyn, hfet]
          · simp [pushEvent, blocksOf, List.enumFrom]
        | true =>
          simp only [if_true] at h
          replace h : synthLoop env voiceUrl n rest (i + 1)
              (updateJob env (pushEvent st (Event.synthCall i chunk voiceUrl))
                { progress := some (35 + ((i + 1) * 50) / n) })
              (acc ++ [body]) = (st', Except.error msg) := by
            simpa using h
          have hseg : segmentAudio env i = some body := by
            simp [segmentAudio, hsyn, hfet]
          obtain ⟨k', ck, hk'len, hnone, hsome, hevents⟩ :=
            synthLoop_err_char env voiceUrl n rest (i + 1) _ _ h
          refine ⟨k' + 1, ck, by simpa using Nat.succ_lt_succ hk'len, ?_, ?_, ?_⟩
          · have hi : i + (k' + 1) = i + 1 + k' := by omega
            rw [hi]
            exact hnone
          · intro j hj
            cases j with
            | zero => simp [hseg]
            | succ j' =>
              have hi : i + (j' + 1) = i + 1 + j' := by omega
              rw [hi]
              exact hsome j' (by omega)
          · rw [hevents]
            have hi : i + 1 + k' = i + (k' + 1) := by omega
            rw [hi]
            simp [updateJob, pushEvent, blocksOf, chunkBlock, List.enumFrom,
              List.take, List.append_assoc]

theorem isSome_of_forall_enumFrom {env : Env} {chunks : List (List Char)}
    (hC : ∀ pr ∈ List.enumFrom 0 chunks, (segmentAudio env pr.1).isSome = true)
    {i : Nat} (hi : i < chunks.length) : (segmentAudio env i).isSome = true := by
  have hmem : i ∈ List.map Prod.fst (List.enumFrom 0 chunks) := by
    rw [List.enumFrom_map_fst, ← List.range_eq_range']
    exact List.mem_range.2 hi
  obtain ⟨pr, hpr, hfst⟩ := List.mem_map.1 hmem
  rw [← hfst]
  exact hC pr hpr

/-! Projections of the four-update prefix state every run builds before
chunking (steps 1–4). -/

theorem statusWrites_prefix4 (env : Env) :
    statusWrites (updateJob env (updateJob env (updateJob env (updateJob env initState
      { status := some JobStatus.processing, progress := some 5 })
      { progress := some 10 }) { progress := some 25 }) { progress := some 35 }).events
    = [JobStatus.processing] := rfl

theorem progressWrites_prefix4 (env : Env) :
    progressWrites (updateJob env (updateJob env (updateJob env (updateJob env initState
      { status := some JobStatus.processing, progress := some 5 })
      { progress := some 10 }) { progress := some 25 }) { progress := some 35 }).events
    = [5, 10, 25, 35] := rfl

theorem audioPathWrites_prefix4 (env : Env) :
    audioPathWrites (updateJob env (updateJob env (updateJob env (updateJob env initState
      { status := some JobStatus.processing, progress := some 5 })
      { progress := some 10 }) { progress := some 25 }) { progress := some 35 }).events
    = [] := rfl

theorem synthCalls_prefix4 (env : Env) :
    synthCalls (updateJob env (updateJob env (updateJob env (updateJob env initState
      { status := some JobStatus.processing, progress := some 5 })
      { progress := some 10 }) { progress := some 25 }) { progress := some 35 }).events
    = [] := rfl

theorem uploadsOf_prefix4 (env : Env) :
    uploadsOf (updateJob env (updateJob env (updateJob env (updateJob env initState
      { status := some JobStatus.processing, progress := some 5 })
      { progress := some 10 }) { progress := some 25 }) { progress := some 35 }).events
    = [] := rfl

/-- Characterization of a failing `try` body: the job was marked
`processing` (and nothing else), no output location was written, the
synthesizer call indices are exactly `0..c-1` in order for some count `c`,
and a call at index `i+1` only happens after segment `i` fully
succeeded. -/
theorem tryBody_err_char (env : Env) (p : Payload) {st : RunState} {msg : List Char}
    (h : tryBody env p = (st, Except.error msg)) :
    statusWrites st.events = [JobStatus.processing]
    ∧ audioPathWrites st.events = []
    ∧ synthCallIndices st.events = List.range (synthCallIndices st.events).length
    ∧ (∀ i, (i + 1) ∈ synthCallIndices st.events → (segmentAudio env i).isSome = true) := by
  simp only [tryBody] at h
  cases hdl : env.download with
  | error m =>
    simp only [hdl] at h
    obtain ⟨rfl, rfl⟩ : _ ∧ pdfFailMsg m = msg := by simpa using h
    refine ⟨rfl, rfl, rfl, ?_⟩
    intro i hi
    exact absurd hi (List.not_mem_nil _)
  | ok b =>
    simp only [hdl] at h
    by_cases ht : blank (env.extract b) = true
    · rw [if_pos ht] at h
      obtain ⟨rfl, rfl⟩ : _ ∧ scannedMsg = msg := by simpa using h
      refine ⟨rfl, rfl, rfl, ?_⟩
      intro i hi
      exact absurd hi (List.not_mem_nil _)
    · rw [if_neg ht] at h
      cases hvp : p.voiceStoragePath with
      | none =>
        simp only [hvp] at h
        cases hvid : p.videoId with
        | some v =>
          simp only [hvid] at h
          obtain ⟨rfl, rfl⟩ : _ ∧ ytMsg = msg := by simpa using h
          refine ⟨rfl, rfl, rfl, ?_⟩
          intro i hi
          exact absurd hi (List.not_mem_nil _)
        | none =>
          simp only [hvid] at h
          obtain ⟨rfl, rfl⟩ : _ ∧ noVoiceMsg = msg := by simpa using h
          refine ⟨rfl, rfl, rfl, ?_⟩
          intro i hi
          exact absurd hi (List.not_mem_nil _)
      | some vp =>
        simp only [hvp] at h
        rcases hloop : synthLoop env (env.publicUrl vp)
            (splitText (env.extract b) maxChunkChars).length
            (splitText (env.extract b) maxChunkChars) 0
            (updateJob env (updateJob env (updateJob env (updateJob env initState
              { status := some JobStatus.processing, progress := some 5 })
              { progress := some 10 }) { progress := some 25 }) { progress := some 35 })
            [] with ⟨stL, r⟩
        simp only [hloop] at h
        cases r with
        | error m =>
          obtain ⟨heq, rfl⟩ : stL = st ∧ m = msg := by simpa using h
          obtain ⟨k, ck, hk, hnone, hsome, hevents⟩ :=
            synthLoop_err_char env (env.publicUrl vp) _ _ 0 _ [] hloop
          rw [heq] at hevents
          have hlen : (List.take k (splitText (env.extract b) maxChunkChars)).length = k := by
            rw [List.length_take]
            omega
          have hsc : synthCalls st.events =
              List.enumFrom 0 (List.take k (splitText (env.extract b) maxChunkChars))
                ++ [(0 + k, ck)] := by
            rw [hevents, synthCalls_append, synthCalls_append, synthCalls_blocks,
              synthCalls_prefix4, List.nil_append]
            rfl
          have hcalls : synthCallIndices st.events = List.range (k + 1) := by
            rw [synthCallIndices, hsc, List.map_append, List.enumFrom_map_fst, hlen,
              List.range_succ, List.range_eq_range']
            simp
          refine ⟨?_, ?_, ?_, ?_⟩
          · rw [hevents, statusWrites_append, statusWrites_append, statusWrites_blocks,
              statusWrites_prefix4]
            rfl
          · rw [hevents, audioPathWrites_append, audioPathWrites_append,
              audioPathWrites_blocks, audioPathWrites_prefix4]
            rfl
          · rw [hcalls, List.length_range]
          · intro i hi
            rw [hcalls] at hi
            have hik : i < k := by
              have := List.mem_range.1 hi
              omega
            have := hsome i hik
            rwa [Nat.zero_add] at this
        | ok segs =>
          cases hup : env.uploadError with
          | some m =>
            simp only [hup] at h
            obtain ⟨heq, rfl⟩ : _ = st ∧ uploadFailMsg m = msg := by simpa using h
            obtain ⟨hA, hB, hC, hD⟩ :=
              synthLoop_ok_char env (env.publicUrl vp) _ _ 0 _ [] hloop
            have hev : st.events = stL.events ++
                [Event.update { progress := some 90 },
                 Event.storageUpload (outputPathOf p.jobId) segs.flatten] := by
              rw [← heq]
              simp [pushEvent, updateJob, List.append_assoc]
            have hsc : synthCalls st.events =
                List.enumFrom 0 (splitText (env.extract b) maxChunkChars) := by
              rw [hev, synthCalls_append, hA, synthCalls_append, synthCalls_blocks,
                synthCalls_prefix4, List.nil_append]
              simp [synthCalls]
            have hcalls : synthCallIndices st.events =
                List.range (splitText (env.extract b) maxChunkChars).length := by
              rw [synthCallIndices, hsc, List.enumFrom_map_fst, ← List.range_eq_range']
            refine ⟨?_, ?_, ?_, ?_⟩
            · rw [hev, statusWrites_append, hA, statusWrites_append, statusWrites_blocks,
                statusWrites_prefix4]
              simp [statusWrites]
            · rw [hev, audioPathWrites_append, hA, audioPathWrites_append,
                audioPathWrites_blocks, audioPathWrites_prefix4]
              simp [audioPathWrites]
            · rw [hcalls, List.length_range]
            · intro i hi
              rw [hcalls] at hi
              exact isSome_of_forall_enumFrom hC (by have := List.mem_range.1 hi; omega)
          | none =>
            simp only [hup] at h
            simp at h

theorem statusWrites_upd_cons (u : JobUpdate) (evs : List Event) :
    statusWrites (Event.update u :: evs) = u.status.toList ++ statusWrites evs := by
  cases hs : u.status <;> simp [statusWrites, List.filterMap_cons, hs]

theorem progressWrites_upd_cons (u : JobUpdate) (evs : List Event) :
    progressWrites (Event.update u :: evs) = u.progress.toList ++ progressWrites evs := by
  cases hs : u.progress <;> simp [progressWrites, List.filterMap_cons, hs]

theorem audioPathWrites_upd_cons (u : JobUpdate) (evs : List Event) :
    audioPathWrites (Event.update u :: evs) = u.audioPath.toList ++ audioPathWrites evs := by
  cases hs : u.audioPath <;> simp [audioPathWrites, List.filterMap_cons, hs]

theorem synthCalls_upd_cons (u : JobUpdate) (evs : List Event) :
    synthCalls (Event.update u :: evs) = synthCalls evs := rfl

theorem uploadsOf_upd_cons (u : JobUpdate) (evs : List Event) :
    uploadsOf (Event.update u :: evs) = uploadsOf evs := rfl

theorem uploadsOf_upload_cons (pa : List Char) (bys : Bytes) (evs : List Event) :
    uploadsOf (Event.storageUpload pa bys :: evs) = (pa, bys) :: uploadsOf evs := rfl

theorem map_fst_fun_enumFrom {α β : Type} (f : Nat → β) (i : Nat) (l : List α) :
    (List.enumFrom i l).map (fun pr => f pr.1) = (List.range' i l.length).map f := by
  rw [show (fun pr : Nat × α => f pr.1) = f ∘ Prod.fst from rfl, ← List.map_map,
    List.enumFrom_map_fst]

/-- Characterization of a successful `try` body: the download, extraction,
voice resolution and upload all succeeded, and the event trace is exactly
the four prefix updates, the per-chunk blocks in index order, the
progress-90 update, the upload of the concatenated per-segment audio, and
the ready update. -/
theorem tryBody_ok_char (env : Env) (p : Payload) {st : RunState} {path : List Char}
    (h : tryBody env p = (st, Except.ok path)) :
    ∃ b vp, env.download = Except.ok b ∧ p.voiceStoragePath = some vp
      ∧ blank (env.extract b) = false ∧ env.uploadError = none
      ∧ path = outputPathOf p.jobId
      ∧ st.events =
          Event.update { status := some JobStatus.processing, progress := some 5 } ::
          Event.update { progress := some 10 } ::
          Event.update { progress := some 25 } ::
          Event.update { progress := some 35 } ::
          (blocksOf (env.publicUrl vp) (splitText (env.extract b) maxChunkChars).length
              (List.enumFrom 0 (splitText (env.extract b) maxChunkChars))
            ++ [Event.update { progress := some 90 },
                Event.storageUpload (outputPathOf p.jobId)
                  (((List.enumFrom 0 (splitText (env.extract b) maxChunkChars)).map
                      fun pr => (segmentAudio env pr.1).getD []).flatten),
                Event.update
                  { status := some JobStatus.ready, progress := some 100,
                    audioPath := some (outputPathOf p.jobId) }])
      ∧ (∀ pr ∈ List.enumFrom 0 (splitText (env.extract b) maxChunkChars),
          (segmentAudio env pr.1).isSome = true) := by
  simp only [tryBody] at h
  cases hdl : env.download with
  | error m =>
    simp only [hdl] at h
    simp at h
  | ok b =>
    simp only [hdl] at h
    by_cases ht : blank (env.extract b) = true
    · rw [if_pos ht] at h
      simp at h
    · rw [if_neg ht] at h
      cases hvp : p.voiceStoragePath with
      | none =>
        simp only [hvp] at h
        cases hvid : p.videoId with
        | some v =>
          simp only [hvid] at h
          simp at h
        | none =>
          simp only [hvid] at h
          simp at h
      | some vp =>
        simp only [hvp] at h
        rcases hloop : synthLoop env (env.publicUrl vp)
            (splitText (env.extract b) maxChunkChars).length
            (splitText (env.extract b) maxChunkChars) 0
            (updateJob env (updateJob env (updateJob env (updateJob env initState
              { status := some JobStatus.processing, progress := some 5 })
              { progress := some 10 }) { progress := some 25 }) { progress := some 35 })
            [] with ⟨stL, r⟩
        simp only [hloop] at h
        cases r with
        | error m => simp at h
        | ok segs =>
          cases hup : env.uploadError with
          | some m =>
            simp only [hup] at h
            simp at h
          | none =>
            simp only [hup] at h
            obtain ⟨heq, hpath⟩ : _ = st ∧ outputPathOf p.jobId = path := by simpa using h
            obtain ⟨hA, hB, hC, hD⟩ :=
              synthLoop_ok_char env (env.publicUrl vp) _ _ 0 _ [] hloop
            rw [List.nil_append] at hB
            subst hB
            refine ⟨b, vp, rfl, rfl, by simpa using ht, rfl, hpath.symm, ?_, hC⟩
            rw [← heq]
            simp only [updateJob, pushEvent, hA]
            simp [updateJob, initState, List.append_assoc]

/-- Every run writes either `[processing, ready]` or `[processing, failed]`
to the `status` field. -/
theorem runTask_status_shapes (env : Env) (p : Payload) :
    statusWrites (runTask env p).events = [JobStatus.processing, JobStatus.ready]
    ∨ statusWrites (runTask env p).events = [JobStatus.processing, JobStatus.failed] := by
  rcases htb : tryBody env p with ⟨st, r⟩
  cases r with
  | ok q =>
    left
    simp only [runTask, htb]
    obtain ⟨b, vp, _, _, _, _, _, hev, _⟩ := tryBody_ok_char env p htb
    rw [hev, statusWrites_upd_cons, statusWrites_upd_cons, statusWrites_upd_cons,
      statusWrites_upd_cons, statusWrites_append, statusWrites_blocks]
    rfl
  | error m =>
    right
    simp only [runTask, htb]
    obtain ⟨h1, -, -, -⟩ := tryBody_err_char env p htb
    simp only [updateJob]
    rw [statusWrites_append, h1]
    rfl

theorem not_readyAfterFailed_of_shapes {l : List JobStatus}
    (h : l = [JobStatus.processing, JobStatus.ready]
      ∨ l = [JobStatus.processing, JobStatus.failed]) :
    ¬ ReadyAfterFailed l := by
  rintro ⟨l₁, l₂, l₃, hl⟩
  rcases h with rfl | rfl
  · have hmem : JobStatus.failed ∈ [JobStatus.processing, JobStatus.ready] := by
      rw [hl]
      simp
    simp at hmem
  · have hmem : JobStatus.ready ∈ [JobStatus.processing, JobStatus.failed] := by
      rw [hl]
      simp
    simp at hmem

/-! ### Progress-chain helpers -/

theorem getLast?_map_range (f : Nat → Nat) (m : Nat) :
    ((List.range (m + 1)).map f).getLast? = some (f m) := by
  rw [List.range_succ, List.map_append]
  exact List.getLast?_concat _

theorem chain_le_map_range (f : Nat → Nat) (hf : ∀ i, f i ≤ f (i + 1)) :
    ∀ n, List.Chain' (· ≤ ·) ((List.range n).map f)
  | 0 => List.chain'_nil
  | n + 1 => by
    rw [List.range_succ, List.map_append]
    refine List.Chain'.append (chain_le_map_range f hf n) (List.chain'_singleton _) ?_
    intro x hx y hy
    obtain rfl : f n = y := by simpa using hy
    cases n with
    | zero => simp at hx
    | succ m =>
      rw [getLast?_map_range f m] at hx
      obtain rfl : f m = x := by simpa using hx
      exact hf m

theorem chain_progress_full (n : Nat) (hn : 0 < n) :
    List.Chain' (· ≤ ·)
      (5 :: 10 :: 25 :: 35 ::
        (((List.range n).map fun i => 35 + ((i + 1) * 50) / n) ++ [90, 100])) := by
  have hmono : ∀ i, 35 + ((i + 1) * 50) / n ≤ 35 + ((i + 1 + 1) * 50) / n := by
    intro i
    have h1 : (i + 1) * 50 ≤ (i + 1 + 1) * 50 := by omega
    have h2 := Nat.div_le_div_right (c := n) h1
    omega
  have hub : ∀ i, i < n → 35 + ((i + 1) * 50) / n ≤ 90 := by
    intro i hi
    have h1 : (i + 1) * 50 ≤ n * 50 := Nat.mul_le_mul_right 50 hi
    have h2 : (i + 1) * 50 / n ≤ n * 50 / n := Nat.div_le_div_right h1
    rw [Nat.mul_div_cancel_left 50 hn] at h2
    omega
  refine List.chain'_cons.2 ⟨by norm_num, ?_⟩
  refine List.chain'_cons.2 ⟨by norm_num, ?_⟩
  refine List.chain'_cons.2 ⟨by norm_num, ?_⟩
  refine List.chain'_cons'.2 ⟨?_, ?_⟩
  · intro y hy
    cases n with
    | zero => omega
    | succ m =>
      have hhead : (((List.range (m + 1)).map fun i => 35 + ((i + 1) * 50) / (m + 1))
          ++ [90, 100]).head? = some (35 + ((0 + 1) * 50) / (m + 1)) := by
        rw [List.range_succ_eq_map]
        rfl
      rw [hhead] at hy
      obtain rfl : 35 + ((0 + 1) * 50) / (m + 1) = y := by simpa using hy
      exact Nat.le_add_right 35 _
  · refine List.Chain'.append (chain_le_map_range _ hmono n) ?_ ?_
    · exact List.chain'_cons.2 ⟨by norm_num, List.chain'_singleton _⟩
    · intro x hx y hy
      obtain rfl : (90 : Nat) = y := by simpa using hy
      cases n with
      | zero => simp at hx
      | succ m =>
        rw [getLast?_map_range] at hx
        have hx' : 35 + ((m + 1) * 50) / (m + 1) = x := by simpa using hx
        rw [← hx']
        exact hub m (Nat.lt_succ_self m)

theorem progress_full_getLast (n : Nat) :
    (5 :: 10 :: 25 :: 35 ::
      (((List.range n).map fun i => 35 + ((i + 1) * 50) / n) ++ [90, 100])).getLast?
    = some 100 := by
  rw [show (5 :: 10 :: 25 :: 35 ::
      (((List.range n).map fun i => 35 + ((i + 1) * 50) / n) ++ [90, 100])) =
      (5 :: 10 :: 25 :: 35 ::
        (((List.range n).map fun i => 35 + ((i + 1) * 50) / n) ++ [90])) ++ [100] by
    simp]
  exact List.getLast?_concat _

/-- **C1**: for every job whose extracted text splits into `N` segments
and whose run succeeds, the Segment Synthesizer is invoked exactly once
per segment index `0..N-1`, in increasing index order and with that
segment's text, and the published audio artifact equals the byte
concatenation of the per-segment audio outputs in that exact index
order. -/
theorem C1_ordering_invariant (env : Env) (p : Payload) (path : List Char)
    (h : (runTask env p).outcome = Except.ok path) :
    ∃ b, env.download = Except.ok b
      ∧ synthCalls (runTask env p).events =
          (splitText (env.extract b) maxChunkChars).enum
      ∧ (∀ i < (splitText (env.extract b) maxChunkChars).length,
          (segmentAudio env i).isSome = true)
      ∧ uploadsOf (runTask env p).events =
          [(path,
            ((List.range (splitText (env.extract b) maxChunkChars).length).map
                fun i => (segmentAudio env i).getD []).flatten)] := by
  rcases htb : tryBody env p with ⟨st, r⟩
  cases r with
  | error m =>
    simp only [runTask, htb] at h
    simp at h
  | ok q =>
    simp only [runTask, htb] at h ⊢
    replace h : q = path := by simpa using h
    subst h
    obtain ⟨b, vp, hdl, hvp, hbl, hup, hpath, hev, hC⟩ := tryBody_ok_char env p htb
    refine ⟨b, hdl, ?_, ?_, ?_⟩
    · rw [hev, synthCalls_upd_cons, synthCalls_upd_cons, synthCalls_upd_cons,
        synthCalls_upd_cons, synthCalls_append, synthCalls_blocks]
      have henum : (splitText (env.extract b) maxChunkChars).enum =
          List.enumFrom 0 (splitText (env.extract b) maxChunkChars) := rfl
      rw [henum]
      simp [synthCalls]
    · intro i hi
      exact isSome_of_forall_enumFrom hC hi
    · rw [hev, uploadsOf_upd_cons, uploadsOf_upd_cons, uploadsOf_upd_cons,
        uploadsOf_upd_cons, uploadsOf_append, uploadsOf_blocks, hpath]
      rw [map_fst_fun_enumFrom (fun i => (segmentAudio env i).getD []) 0
        (splitText (env.extract b) maxChunkChars), ← List.range_eq_range']
      rfl

/-- **C2**: for every run that fails (any fatal error in steps 2–8,
including a synthesizer failure mid-loop), the remaining steps are
skipped, the last write to the Job is `{status := failed, error := msg}`
with the run's single error message, no output location is ever written,
the synthesizer call indices are the consecutive prefix `0..c-1`, and a
call at index `i+1` is made only after segment `i` fully succeeded —
so a failure at index `k` means no calls for `k+1..N-1`. -/
theorem C2_failure_short_circuit (env : Env) (p : Payload) (msg : List Char)
    (h : (runTask env p).outcome = Except.error msg) :
    (∃ evs, (runTask env p).events =
        evs ++ [Event.update { status := some JobStatus.failed, error := some msg }])
    ∧ statusWrites (runTask env p).events = [JobStatus.processing, JobStatus.failed]
    ∧ audioPathWrites (runTask env p).events = []
    ∧ synthCallIndices (runTask env p).events =
        List.range (synthCallIndices (runTask env p).events).length
    ∧ (∀ i, (i + 1) ∈ synthCallIndices (runTask env p).events →
        (segmentAudio env i).isSome = true) := by
  rcases htb : tryBody env p with ⟨st, r⟩
  cases r with
  | ok q =>
    simp only [runTask, htb] at h
    simp at h
  | error m =>
    simp only [runTask, htb] at h ⊢
    replace h : m = msg := by simpa using h
    subst h
    obtain ⟨h1, h2, h3, h4⟩ := tryBody_err_char env p htb
    simp only [updateJob]
    refine ⟨⟨st.events, rfl⟩, ?_, ?_, ?_, ?_⟩
    · rw [statusWrites_append, h1]
      rfl
    · rw [audioPathWrites_append, h2]
      rfl
    · have hsc : synthCalls (st.events ++
          [Event.update { status := some JobStatus.failed, error := some m }]) =
          synthCalls st.events := by
        rw [synthCalls_append]
        simp [synthCalls]
      rw [synthCallIndices, hsc, ← synthCallIndices]
      exact h3
    · intro i hi
      have hsc : synthCalls (st.events ++
          [Event.update { status := some JobStatus.failed, error := some m }]) =
          synthCalls st.events := by
        rw [synthCalls_append]
        simp [synthCalls]
      rw [synthCallIndices, hsc, ← synthCallIndices] at hi
      exact h4 i hi

/-- **C3**: for every successful run, the `progress` values written are
exactly `5, 10, 25, 35`, then `35 + ⌊(i+1)·50/N⌋` per completed segment,
then `90`, then `100` — a non-decreasing sequence whose final value is
exactly `100`; and in no run (successful or failed) is a `ready` status
written after a `failed` one. -/
theorem C3_progress_monotonicity (env : Env) (p : Payload) :
    ((∀ path, (runTask env p).outcome = Except.ok path →
        (∃ b, env.download = Except.ok b ∧
          progressWrites (runTask env p).events =
            5 :: 10 :: 25 :: 35 ::
              (((List.range (splitText (env.extract b) maxChunkChars).length).map
                  fun i => 35 + ((i + 1) * 50) /
                    (splitText (env.extract b) maxChunkChars).length)
                ++ [90, 100]))
        ∧ List.Chain' (· ≤ ·) (progressWrites (runTask env p).events)
        ∧ (progressWrites (runTask env p).events).getLast? = some 100))
    ∧ ¬ ReadyAfterFailed (statusWrites (runTask env p).events) := by
  constructor
  · intro path h
    rcases htb : tryBody env p with ⟨st, r⟩
    cases r with
    | error m =>
      simp only [runTask, htb] at h
      simp at h
    | ok q =>
      simp only [runTask, htb] at h ⊢
      obtain ⟨b, vp, hdl, hvp, hbl, hup, hpath, hev, hC⟩ := tryBody_ok_char env p htb
      have hn : 0 < (splitText (env.extract b) maxChunkChars).length :=
        splitText_length_pos (env.extract b) maxChunkChars
      have hpw : progressWrites st.events =
          5 :: 10 :: 25 :: 35 ::
            (((List.range (splitText (env.extract b) maxChunkChars).length).map
                fun i => 35 + ((i + 1) * 50) /
                  (splitText (env.extract b) maxChunkChars).length)
              ++ [90, 100]) := by
        rw [hev, progressWrites_upd_cons, progressWrites_upd_cons,
          progressWrites_upd_cons, progressWrites_upd_cons, progressWrites_append,
          progressWrites_blocks,
          map_fst_fun_enumFrom
            (fun i => 35 + ((i + 1) * 50) /
              (splitText (env.extract b) maxChunkChars).length) 0
            (splitText (env.extract b) maxChunkChars),
          ← List.range_eq_range']
        rfl
      exact ⟨⟨b, hdl, hpw⟩, hpw ▸ chain_progress_full _ hn, hpw ▸ progress_full_getLast _⟩
  · exact not_readyAfterFailed_of_shapes (runTask_status_shapes env p)

/-- The error the voice-resolution step throws when no direct sample path
is present: the yt-dlp placeholder message when an external-video reference
is set (lines 75–81), else the no-sample message (line 83). -/
def voiceFailMsg (p : Payload) : List Char :=
  match p.videoId with
  | some _ => ytMsg
  | none => noVoiceMsg

/-- The loop never rewrites history: its final state extends the initial
events. -/
theorem synthLoop_events_prefix (env : Env) (voiceUrl : List Char) (n : Nat)
    (chunks : List (List Char)) (i : Nat) (st : RunState) (acc : List Bytes) :
    ∃ tail, (synthLoop env voiceUrl n chunks i st acc).1.events = st.events ++ tail := by
  rcases hres : synthLoop env voiceUrl n chunks i st acc with ⟨st', r⟩
  cases r with
  | ok segs =>
    obtain ⟨hA, -, -, -⟩ := synthLoop_ok_char env voiceUrl n chunks i st acc hres
    exact ⟨_, hA⟩
  | error m =>
    obtain ⟨k, ck, -, -, -, hevents⟩ :=
      synthLoop_err_char env voiceUrl n chunks i st acc hres
    exact ⟨_, by rw [hevents, List.append_assoc]⟩

/-- On a non-empty chunk list the loop's very first effect after the
initial state is the synthesizer call at index `i`. -/
theorem synthLoop_first_call (env : Env) (voiceUrl : List Char) (n : Nat)
    (chunk : List Char) (rest : List (List Char)) (i : Nat) (st : RunState)
    (acc : List Bytes) :
    ∃ ck tail, (synthLoop env voiceUrl n (chunk :: rest) i st acc).1.events
      = st.events ++ Event.synthCall i ck voiceUrl :: tail := by
  rcases hres : synthLoop env voiceUrl n (chunk :: rest) i st acc with ⟨st', r⟩
  cases r with
  | ok segs =>
    obtain ⟨hA, -, -, -⟩ := synthLoop_ok_char env voiceUrl n (chunk :: rest) i st acc hres
    refine ⟨chunk, Event.update { progress := some (35 + ((i + 1) * 50) / n) } ::
      blocksOf voiceUrl n (List.enumFrom (i + 1) rest), ?_⟩
    show st'.events = _
    rw [hA]
    simp [List.enumFrom, blocksOf_cons, chunkBlock, List.append_assoc]
  | error m =>
    obtain ⟨k, ck, -, -, -, hevents⟩ :=
      synthLoop_err_char env voiceUrl n (chunk :: rest) i st acc hres
    cases k with
    | zero =>
      refine ⟨ck, [], ?_⟩
      show st'.events = _
      rw [hevents]
      simp [blocksOf, List.enumFrom]
    | succ j =>
      refine ⟨chunk, Event.update { progress := some (35 + ((i + 1) * 50) / n) } ::
        (blocksOf voiceUrl n (List.enumFrom (i + 1) (List.take j rest))
          ++ [Event.synthCall (i + (j + 1)) ck voiceUrl]), ?_⟩
      show st'.events = _
      rw [hevents, List.take_succ_cons]
      simp [List.enumFrom, blocksOf_cons, chunkBlock, List.append_assoc]

/-- **C7 (amended)**: given a fetchable document with non-blank text, the
voice-resolution step fails fatally if and only if no *direct* voice-sample
storage path is present.  A job with only an external-video reference does
not proceed: it fails with the yt-dlp placeholder message (and with the
no-sample message when neither reference is present), before any progress-35
write or synthesizer call.  With a direct sample path the orchestrator
proceeds: progress 35 is written and the synthesizer is called at index 0. -/
theorem C7_voice_resolution_amended (env : Env) (p : Payload) (b : Bytes)
    (hdl : env.download = Except.ok b) (htext : blank (env.extract b) = false) :
    (p.voiceStoragePath = none →
        (runTask env p).outcome = Except.error (voiceFailMsg p)
        ∧ synthCalls (runTask env p).events = []
        ∧ 35 ∉ progressWrites (runTask env p).events)
    ∧ (∀ vp, p.voiceStoragePath = some vp →
        35 ∈ progressWrites (runTask env p).events
        ∧ 0 ∈ synthCallIndices (runTask env p).events) := by
  have hbt : ¬ (blank (env.extract b) = true) := by simp [htext]
  constructor
  · intro hvp
    have htb : tryBody env p =
        (updateJob env (updateJob env (updateJob env initState
           { status := some JobStatus.processing, progress := some 5 })
           { progress := some 10 }) { progress := some 25 },
         Except.error (voiceFailMsg p)) := by
      simp only [tryBody, hdl, hvp]
      rw [if_neg hbt]
      cases hvid : p.videoId <;> simp [voiceFailMsg, hvid]
    refine ⟨?_, ?_, ?_⟩
    · simp [runTask, htb]
    · simp only [runTask, htb]
      rfl
    · simp only [runTask, htb, updateJob]
      simp [progressWrites, initState, List.filterMap_append, List.filterMap_cons]
  · intro vp hvp
    rcases hch : splitText (env.extract b) maxChunkChars with _ | ⟨c0, cr⟩
    · exact absurd (splitText_length_pos (env.extract b) maxChunkChars)
        (by rw [hch]; simp)
    · rcases hloop : synthLoop env (env.publicUrl vp) (c0 :: cr).length (c0 :: cr) 0
          (updateJob env (updateJob env (updateJob env (updateJob env initState
            { status := some JobStatus.processing, progress := some 5 })
            { progress := some 10 }) { progress := some 25 }) { progress := some 35 })
          [] with ⟨stL, r⟩
      obtain ⟨ck, tail, hfirst⟩ := synthLoop_first_call env (env.publicUrl vp)
        (c0 :: cr).length c0 cr 0
        (updateJob env (updateJob env (updateJob env (updateJob env initState
          { status := some JobStatus.processing, progress := some 5 })
          { progress := some 10 }) { progress := some 25 }) { progress := some 35 })
        []
      rw [hloop] at hfirst
      dsimp only [] at hfirst
      have hsuffix : ∃ suffix, (runTask env p).events = stL.events ++ suffix := by
        have htb : tryBody env p =
            (match (stL, r) with
             | (st2, Except.error m) => (st2, Except.error m)
             | (st2, Except.ok segs) =>
               match env.uploadError with
               | some m =>
                 (pushEvent (updateJob env st2 { progress := some 90 })
                   (Event.storageUpload (outputPathOf p.jobId) segs.flatten),
                  Except.error (uploadFailMsg m))
               | none =>
                 (updateJob env
                   (pushEvent (updateJob env st2 { progress := some 90 })
                     (Event.storageUpload (outputPathOf p.jobId) segs.flatten))
                   { status := some JobStatus.ready, progress := some 100,
                     audioPath := some (outputPathOf p.jobId) },
                  Except.ok (outputPathOf p.jobId))) := by
          simp only [tryBody, hdl, hvp]
          rw [if_neg hbt, hch, hloop]
        cases r with
        | error m =>
          simp only [htb, runTask]
          exact ⟨[Event.update { status := some JobStatus.failed, error := some m }],
            by simp [updateJob]⟩
        | ok segs =>
          cases hup : env.uploadError with
          | some m =>
            simp only [hup] at htb
            simp only [htb, runTask]
            refine ⟨[Event.update { progress := some 90 },
              Event.storageUpload (outputPathOf p.jobId) segs.flatten,
              Event.update
                { status := some JobStatus.failed,
                  error := some (uploadFailMsg m) }], ?_⟩
            simp [updateJob, pushEvent, List.append_assoc]
          | none =>
            simp only [hup] at htb
            simp only [htb, runTask]
            refine ⟨[Event.update { progress := some 90 },
              Event.storageUpload (outputPathOf p.jobId) segs.flatten,
              Event.update
                { status := some JobStatus.ready, progress := some 100,
                  audioPath := some (outputPathOf p.jobId) }], ?_⟩
            simp [updateJob, pushEvent, List.append_assoc]
      obtain ⟨suffix, hsuf⟩ := hsuffix
      constructor
      · rw [hsuf, progressWrites_append, hfirst, progressWrites_append,
          progressWrites_prefix4]
        refine List.mem_append_left _ (List.mem_append_left _ ?_)
        simp
      · rw [hsuf, synthCallIndices, synthCalls_append, hfirst, synthCalls_append]
        refine List.mem_map.2 ⟨(0, ck), ?_, rfl⟩
        refine List.mem_append_left _ (List.mem_append_right _ ?_)
        rw [show synthCalls (Event.synthCall 0 ck (env.publicUrl vp) :: tail)
          = (0, ck) :: synthCalls tail from rfl]
        exact List.mem_cons_self _ _

/-- **C8 (amended)**: the per-segment step normalizes the backend response
to a URL and always *fetches*: a plain URL string (b) or an object exposing
`url` (c) yields the bytes fetched from that URL as the segment audio; any
other response — including a direct byte payload (a) — has its JS string
coercion fetched instead, and the payload bytes themselves are never used,
so a failing fetch of that coercion aborts the job. -/
theorem C8_response_shapes_amended (env : Env) (voiceUrl : List Char) (n i : Nat)
    (chunk : List Char) (rest : List (List Char)) (st : RunState) (acc : List Bytes)
    (u : List Char) (bdy bp : Bytes) (s m : List Char) :
    (env.synth i = Except.ok (SynthOut.str u) →
      env.fetch u = FetchResult.resp true bdy →
      synthLoop env voiceUrl n (chunk :: rest) i st acc =
        synthLoop env voiceUrl n rest (i + 1)
          (updateJob env (pushEvent st (Event.synthCall i chunk voiceUrl))
            { progress := some (35 + ((i + 1) * 50) / n) })
          (acc ++ [bdy]))
    ∧ (env.synth i = Except.ok (SynthOut.objWithUrl u) →
      env.fetch u = FetchResult.resp true bdy →
      synthLoop env voiceUrl n (chunk :: rest) i st acc =
        synthLoop env voiceUrl n rest (i + 1)
          (updateJob env (pushEvent st (Event.synthCall i chunk voiceUrl))
            { progress := some (35 + ((i + 1) * 50) / n) })
          (acc ++ [bdy]))
    ∧ (env.synth i = Except.ok (SynthOut.bytePayload bp s) →
      env.fetch s = FetchResult.reject m →
      synthLoop env voiceUrl n (chunk :: rest) i st acc =
        (pushEvent st (Event.synthCall i chunk voiceUrl), Except.error m)) := by
  refine ⟨?_, ?_, ?_⟩
  · intro h1 h2
    simp [synthLoop, h1, h2, audioUrlOf]
  · intro h1 h2
    simp [synthLoop, h1, h2, audioUrlOf]
  · intro h1 h2
    simp [synthLoop, h1, h2, audioUrlOf]

/-! ### Recorder-failure invariance (C9) -/

theorem synthLoop_obs (env1 env2 : Env) (hsy : env1.synth = env2.synth)
    (hfe : env1.fetch = env2.fetch) (voiceUrl : List Char) (n : Nat) :
    ∀ (chunks : List (List Char)) (i : Nat) (st1 st2 : RunState) (acc : List Bytes)
      {s1 s2 : RunState} {r1 r2 : Except (List Char) (List Bytes)},
      st1.events = st2.events → st1.updCount = st2.updCount →
      synthLoop env1 voiceUrl n chunks i st1 acc = (s1, r1) →
      synthLoop env2 voiceUrl n chunks i st2 acc = (s2, r2) →
      s1.events = s2.events ∧ s1.updCount = s2.updCount ∧ r1 = r2
  | [], i, st1, st2, acc, s1, s2, r1, r2, he, hc, h1, h2 => by
    obtain ⟨rfl, rfl⟩ : st1 = s1 ∧ Except.ok acc = r1 := by simpa [synthLoop] using h1
    obtain ⟨rfl, rfl⟩ : st2 = s2 ∧ Except.ok acc = r2 := by simpa [synthLoop] using h2
    exact ⟨he, hc, rfl⟩
  | chunk :: rest, i, st1, st2, acc, s1, s2, r1, r2, he, hc, h1, h2 => by
    simp only [synthLoop] at h1 h2
    simp only [hsy, hfe] at h1
    cases hsyn : env2.synth i with
    | error m =>
      simp only [hsyn] at h1 h2
      obtain ⟨rfl, rfl⟩ : pushEvent st1 (Event.synthCall i chunk voiceUrl) = s1
          ∧ Except.error m = r1 := by simpa using h1
      obtain ⟨rfl, rfl⟩ : pushEvent st2 (Event.synthCall i chunk voiceUrl) = s2
          ∧ Except.error m = r2 := by simpa using h2
      exact ⟨by simp [pushEvent, he], by simp [pushEvent, hc], rfl⟩
    | ok out =>
      simp only [hsyn] at h1 h2
      cases hfet : env2.fetch (audioUrlOf out) with
      | reject m =>
        simp only [hfet] at h1 h2
        obtain ⟨rfl, rfl⟩ : pushEvent st1 (Event.synthCall i chunk voiceUrl) = s1
            ∧ Except.error m = r1 := by simpa using h1
        obtain ⟨rfl, rfl⟩ : pushEvent st2 (Event.synthCall i chunk voiceUrl) = s2
            ∧ Except.error m = r2 := by simpa using h2
        exact ⟨by simp [pushEvent, he], by simp [pushEvent, hc], rfl⟩
      | resp ok body =>
        simp only [hfet] at h1 h2
        cases ok with
        | false =>
          obtain ⟨rfl, rfl⟩ : pushEvent st1 (Event.synthCall i chunk voiceUrl) = s1
              ∧ Except.error (chunkFetchFailMsg i) = r1 := by simpa using h1
          obtain ⟨rfl, rfl⟩ : pushEvent st2 (Event.synthCall i chunk voiceUrl) = s2
              ∧ Except.error (chunkFetchFailMsg i) = r2 := by simpa using h2
          exact ⟨by simp [pushEvent, he], by simp [pushEvent, hc], rfl⟩
        | true =>
          replace h1 : synthLoop env1 voiceUrl n rest (i + 1)
              (updateJob env1 (pushEvent st1 (Event.synthCall i chunk voiceUrl))
                { progress := some (35 + ((i + 1) * 50) / n) })
              (acc ++ [body]) = (s1, r1) := by simpa using h1
          replace h2 : synthLoop env2 voiceUrl n rest (i + 1)
              (updateJob env2 (pushEvent st2 (Event.synthCall i chunk voiceUrl))
                { progress := some (35 + ((i + 1) * 50) / n) })
              (acc ++ [body]) = (s2, r2) := by simpa using h2
          exact synthLoop_obs env1 env2 hsy hfe voiceUrl n rest (i + 1) _ _ (acc ++ [body])
            (by simp [updateJob, pushEvent, he]) (by simp [updateJob, pushEvent, hc])
            h1 h2

theorem tryBody_obs (env1 env2 : Env) (p : Payload)
    (hdlc : env1.download = env2.download) (hex : env1.extract = env2.extract)
    (hpu : env1.publicUrl = env2.publicUrl) (hsy : env1.synth = env2.synth)
    (hfe : env1.fetch = env2.fetch) (hup : env1.uploadError = env2.uploadError)
    {s1 s2 : RunState} {r1 r2 : Except (List Char) (List Char)}
    (h1 : tryBody env1 p = (s1, r1))
    (h2 : tryBody env2 p = (s2, r2)) :
    s1.events = s2.events ∧ r1 = r2 := by
  simp only [tryBody] at h1 h2
  simp only [hdlc, hex, hpu, hup] at h1
  cases hdl : env2.download with
  | error m =>
    simp only [hdl] at h1 h2
    obtain ⟨rfl, rfl⟩ : _ = s1 ∧ Except.error (pdfFailMsg m) = r1 := by simpa using h1
    obtain ⟨rfl, rfl⟩ : _ = s2 ∧ Except.error (pdfFailMsg m) = r2 := by simpa using h2
    exact ⟨rfl, rfl⟩
  | ok b =>
    simp only [hdl] at h1 h2
    by_cases ht : blank (env2.extract b) = true
    · rw [if_pos ht] at h1 h2
      obtain ⟨rfl, rfl⟩ : _ = s1 ∧ Except.error scannedMsg = r1 := by simpa using h1
      obtain ⟨rfl, rfl⟩ : _ = s2 ∧ Except.error scannedMsg = r2 := by simpa using h2
      exact ⟨rfl, rfl⟩
    · rw [if_neg ht] at h1 h2
      cases hvp : p.voiceStoragePath with
      | none =>
        simp only [hvp] at h1 h2
        cases hvid : p.videoId with
        | some v =>
          simp only [hvid] at h1 h2
          obtain ⟨rfl, rfl⟩ : _ = s1 ∧ Except.error ytMsg = r1 := by simpa using h1
          obtain ⟨rfl, rfl⟩ : _ = s2 ∧ Except.error ytMsg = r2 := by simpa using h2
          exact ⟨rfl, rfl⟩
        | none =>
          simp only [hvid] at h1 h2
          obtain ⟨rfl, rfl⟩ : _ = s1 ∧ Except.error noVoiceMsg = r1 := by simpa using h1
          obtain ⟨rfl, rfl⟩ : _ = s2 ∧ Except.error noVoiceMsg = r2 := by simpa using h2
          exact ⟨rfl, rfl⟩
      | some vp =>
        simp only [hvp] at h1 h2
        rcases hl1 : synthLoop env1 (env2.publicUrl vp)
            (splitText (env2.extract b) maxChunkChars).length
            (splitText (env2.extract b) maxChunkChars) 0
            (updateJob env1 (updateJob env1 (updateJob env1 (updateJob env1 initState
              { status := some JobStatus.processing, progress := some 5 })
              { progress := some 10 }) { progress := some 25 }) { progress := some 35 })
            [] with ⟨sL1, rL1⟩
        rcases hl2 : synthLoop env2 (env2.publicUrl vp)
            (splitText (env2.extract b) maxChunkChars).length
            (splitText (env2.extract b) maxChunkChars) 0
            (updateJob env2 (updateJob env2 (updateJob env2 (updateJob env2 initState
              { status := some JobStatus.processing, progress := some 5 })
              { progress := some 10 }) { progress := some 25 }) { progress := some 35 })
            [] with ⟨sL2, rL2⟩
        obtain ⟨hevL, hcntL, hreq⟩ := synthLoop_obs env1 env2 hsy hfe (env2.publicUrl vp)
          (splitText (env2.extract b) maxChunkChars).length
          (splitText (env2.extract b) maxChunkChars) 0
          (updateJob env1 (updateJob env1 (updateJob env1 (updateJob env1 initState
            { status := some JobStatus.processing, progress := some 5 })
            { progress := some 10 }) { progress := some 25 }) { progress := some 35 })
          (updateJob env2 (updateJob env2 (updateJob env2 (updateJob env2 initState
            { status := some JobStatus.processing, progress := some 5 })
            { progress := some 10 }) { progress := some 25 }) { progress := some 35 })
          [] rfl rfl hl1 hl2
        subst hreq
        rw [hl1] at h1
        rw [hl2] at h2
        cases rL1 with
        | error m =>
          obtain ⟨rfl, rfl⟩ : sL1 = s1 ∧ Except.error m = r1 := by simpa using h1
          obtain ⟨rfl, rfl⟩ : sL2 = s2 ∧ Except.error m = r2 := by simpa using h2
          exact ⟨hevL, rfl⟩
        | ok segs =>
          cases hupc : env2.uploadError with
          | some m =>
            simp only [hupc] at h1 h2
            obtain ⟨rfl, rfl⟩ : _ = s1 ∧ Except.error (uploadFailMsg m) = r1 := by
              simpa using h1
            obtain ⟨rfl, rfl⟩ : _ = s2 ∧ Except.error (uploadFailMsg m) = r2 := by
              simpa using h2
            exact ⟨by simp [updateJob, pushEvent, hevL], rfl⟩
          | none =>
            simp only [hupc] at h1 h2
            obtain ⟨rfl, rfl⟩ : _ = s1 ∧ Except.ok (outputPathOf p.jobId) = r1 := by
              simpa using h1
            obtain ⟨rfl, rfl⟩ : _ = s2 ∧ Except.ok (outputPathOf p.jobId) = r2 := by
              simpa using h2
            exact ⟨by simp [updateJob, pushEvent, hevL], rfl⟩

/-- **C9**: a failure to persist a job-table update is non-fatal: the run's
events and outcome are identical under any recorder oracle (the job run
continues unchanged and `updateJob` never raises), and a failed write is
logged as a warning while the update call still returns normally. -/
theorem C9_recorder_nonfatal (env : Env) (p : Payload)
    (rec2 : Nat → Option (List Char)) :
    ((runTask { env with recorder := rec2 } p).events = (runTask env p).events
     ∧ (runTask { env with recorder := rec2 } p).outcome = (runTask env p).outcome)
    ∧ (∀ (st : RunState) (u : JobUpdate) (m : List Char),
        env.recorder st.updCount = some m →
          (updateJob env st u).events = st.events ++ [Event.update u]
          ∧ (updateJob env st u).logs =
              st.logs ++ [("Failed to update job status: ".data ++ m)]) := by
  constructor
  · rcases h1 : tryBody { env with recorder := rec2 } p with ⟨s1, r1⟩
    rcases h2 : tryBody env p with ⟨s2, r2⟩
    obtain ⟨hev, hr⟩ :=
      tryBody_obs { env with recorder := rec2 } env p rfl rfl rfl rfl rfl rfl h1 h2
    subst hr
    cases r1 with
    | ok q =>
      simp only [runTask, h1, h2]
      exact ⟨hev, trivial⟩
    | error m =>
      simp only [runTask, h1, h2]
      exact ⟨by simp [updateJob, hev], trivial⟩
  · intro st u m hm
    exact ⟨rfl, by simp [updateJob, hm]⟩

/-! ### Concrete runs: sample environments and payloads -/

/-- The spec's running example text. -/
def sampleText : List Char := "Hello world. This is a test. Goodbye now.".data

/-- A fully successful environment: the PDF downloads, extraction yields the
sample text, the backend answers with a plain URL string, the fetch succeeds
with a RIFF header, the upload succeeds, and every job-table write persists. -/
def envW : Env :=
  { download := Except.ok [37, 80, 68, 70]
  , extract := fun _ => sampleText
  , publicUrl := fun vp => "https://cdn.example/".data ++ vp
  , synth := fun _ => Except.ok (SynthOut.str ("https://replicate.delivery/out.wav".data))
  , fetch := fun _ => FetchResult.resp true [82, 73, 70, 70]
  , uploadError := none
  , recorder := fun _ => none }

/-- A payload with a directly uploaded voice sample. -/
def pW : Payload :=
  { jobId := "job-1".data
  , pdfStoragePath := "input/job-1/book.pdf".data
  , voiceStoragePath := some ("voices/job-1/sample.wav".data)
  , videoId := none
  , startTime := 0
  , endTime := 0 }

/-- The same job with only an external-video reference and no direct sample. -/
def pY : Payload :=
  { pW with voiceStoragePath := none, videoId := some ("dQw4w9WgXcQ".data) }

/-- Environment whose synthesis backend rejects every call. -/
def envS : Env := { envW with synth := fun _ => Except.error ("Prediction failed".data) }

/-- Environment whose backend answers with an object exposing a url field. -/
def envO : Env :=
  { envW with
    synth := fun _ => Except.ok (SynthOut.objWithUrl ("https://replicate.delivery/obj.wav".data)) }

/-- Environment whose backend answers with a direct byte payload (JS string
coercion "1,2,3") and whose fetch of that coercion rejects. -/
def envB : Env :=
  { envW with
    synth := fun _ => Except.ok (SynthOut.bytePayload [1, 2, 3] ("1,2,3".data))
  , fetch := fun _ => FetchResult.reject ("TypeError: fetch failed".data) }

/-- A recorder oracle that fails the very first job-table write. -/
def recW : Nat → Option (List Char)
  | 0 => some ("db timeout".data)
  | _ => none

/-- The successful environment with the failing first-write recorder. -/
def envR : Env := { envW with recorder := recW }

set_option maxRecDepth 8000 in
theorem C1_ordering_invariant_witness :
    ∃ b, envW.download = Except.ok b
      ∧ synthCalls (runTask envW pW).events =
          (splitText (envW.extract b) maxChunkChars).enum
      ∧ (∀ i < (splitText (envW.extract b) maxChunkChars).length,
          (segmentAudio envW i).isSome = true)
      ∧ uploadsOf (runTask envW pW).events =
          [(outputPathOf pW.jobId,
            ((List.range (splitText (envW.extract b) maxChunkChars).length).map
                fun i => (segmentAudio envW i).getD []).flatten)] :=
  C1_ordering_invariant envW pW (outputPathOf pW.jobId) rfl

set_option maxRecDepth 8000 in
theorem C2_failure_short_circuit_witness :
    (∃ evs, (runTask envS pW).events =
        evs ++ [Event.update { status := some JobStatus.failed,
                               error := some ("Prediction failed".data) }])
    ∧ statusWrites (runTask envS pW).events = [JobStatus.processing, JobStatus.failed]
    ∧ audioPathWrites (runTask envS pW).events = []
    ∧ synthCallIndices (runTask envS pW).events =
        List.range (synthCallIndices (runTask envS pW).events).length
    ∧ (∀ i, (i + 1) ∈ synthCallIndices (runTask envS pW).events →
        (segmentAudio envS i).isSome = true) :=
  C2_failure_short_circuit envS pW ("Prediction failed".data) rfl

set_option maxRecDepth 8000 in
theorem C3_progress_monotonicity_witness :
    ((∃ b, envW.download = Except.ok b ∧
        progressWrites (runTask envW pW).events =
          5 :: 10 :: 25 :: 35 ::
            (((List.range (splitText (envW.extract b) maxChunkChars).length).map
                fun i => 35 + ((i + 1) * 50) /
                  (splitText (envW.extract b) maxChunkChars).length)
              ++ [90, 100]))
      ∧ List.Chain' (· ≤ ·) (progressWrites (runTask envW pW).events)
      ∧ (progressWrites (runTask envW pW).events).getLast? = some 100)
    ∧ ¬ ReadyAfterFailed (statusWrites (runTask envW pW).events) :=
  ⟨(C3_progress_monotonicity envW pW).1 (outputPathOf pW.jobId) rfl,
   (C3_progress_monotonicity envW pW).2⟩

set_option maxRecDepth 8000 in
/-- **C7 counterexample**: a job carrying only an external-video reference
does not obtain a voice URL and proceed — it fails with the yt-dlp
placeholder message, makes no synthesizer call, and ends failed. -/
theorem C7_voice_resolution_counterexample :
    pY.voiceStoragePath = none ∧ pY.videoId.isSome = true
    ∧ (runTask envW pY).outcome = Except.error ytMsg
    ∧ synthCalls (runTask envW pY).events = []
    ∧ statusWrites (runTask envW pY).events = [JobStatus.processing, JobStatus.failed] := by
  refine ⟨rfl, rfl, ?_, ?_, ?_⟩ <;> rfl

set_option maxRecDepth 8000 in
theorem C7_voice_resolution_amended_witness :
    ((runTask envW pY).outcome = Except.error (voiceFailMsg pY)
     ∧ synthCalls (runTask envW pY).events = []
     ∧ 35 ∉ progressWrites (runTask envW pY).events)
    ∧ (35 ∈ progressWrites (runTask envW pW).events
       ∧ 0 ∈ synthCallIndices (runTask envW pW).events) :=
  ⟨(C7_voice_resolution_amended envW pY [37, 80, 68, 70] rfl (by decide)).1 rfl,
   (C7_voice_resolution_amended envW pW [37, 80, 68, 70] rfl (by decide)).2
     ("voices/job-1/sample.wav".data) rfl⟩

set_option maxRecDepth 8000 in
/-- **C8 counterexample**: when the backend answers with a direct byte
payload, the bytes are not used as segment audio: the run string-coerces the
payload, fetches the coercion, and the failing fetch aborts the job — nothing
is ever uploaded. -/
theorem C8_response_shapes_counterexample :
    envB.synth 0 = Except.ok (SynthOut.bytePayload [1, 2, 3] ("1,2,3".data))
    ∧ (runTask envB pW).outcome = Except.error ("TypeError: fetch failed".data)
    ∧ uploadsOf (runTask envB pW).events = []
    ∧ statusWrites (runTask envB pW).events = [JobStatus.processing, JobStatus.failed] := by
  refine ⟨rfl, ?_, ?_, ?_⟩ <;> rfl

theorem C8_response_shapes_amended_witness :
    (synthLoop envW ("vu".data) 1 ["Hi.".data] 0 initState [] =
       synthLoop envW ("vu".data) 1 [] 1
         (updateJob envW (pushEvent initState (Event.synthCall 0 ("Hi.".data) ("vu".data)))
           { progress := some (35 + ((0 + 1) * 50) / 1) })
         ([] ++ [[82, 73, 70, 70]]))
    ∧ (synthLoop envO ("vu".data) 1 ["Hi.".data] 0 initState [] =
       synthLoop envO ("vu".data) 1 [] 1
         (updateJob envO (pushEvent initState (Event.synthCall 0 ("Hi.".data) ("vu".data)))
           { progress := some (35 + ((0 + 1) * 50) / 1) })
         ([] ++ [[82, 73, 70, 70]]))
    ∧ (synthLoop envB ("vu".data) 1 ["Hi.".data] 0 initState [] =
       (pushEvent initState (Event.synthCall 0 ("Hi.".data) ("vu".data)),
        Except.error ("TypeError: fetch failed".data))) :=
  ⟨(C8_response_shapes_amended envW ("vu".data) 1 0 ("Hi.".data) [] initState []
      ("https://replicate.delivery/out.wav".data) [82, 73, 70, 70] [] [] []).1 rfl rfl,
   (C8_response_shapes_amended envO ("vu".data) 1 0 ("Hi.".data) [] initState []
      ("https://replicate.delivery/obj.wav".data) [82, 73, 70, 70] [] [] []).2.1 rfl rfl,
   (C8_response_shapes_amended envB ("vu".data) 1 0 ("Hi.".data) [] initState []
      [] [] [1, 2, 3] ("1,2,3".data) ("TypeError: fetch failed".data)).2.2 rfl rfl⟩

set_option maxRecDepth 8000 in
theorem C9_recorder_nonfatal_witness :
    ((runTask { envR with recorder := fun _ => none } pW).events = (runTask envR pW).events
     ∧ (runTask { envR with recorder := fun _ => none } pW).outcome =
         (runTask envR pW).outcome)
    ∧ ((updateJob envR initState { progress := some 5 }).events =
          initState.events ++ [Event.update { progress := some 5 }]
       ∧ (updateJob envR initState { progress := some 5 }).logs =
          initState.logs ++ [("Failed to update job status: ".data ++ "db timeout".data)]) :=
  ⟨(C9_recorder_nonfatal envR pW (fun _ => none)).1,
   (C9_recorder_nonfatal envR pW (fun _ => none)).2 initState { progress := some 5 }
     ("db timeout".data) rfl⟩

end Echomancer
